import Mathlib

/-!
Verification of the genetic-algorithm scheduling engine
(`genetic_algorithm.py`): a shallow embedding of the constraint
evaluator `evaluate_schedule`, the genome constructor
`create_individual`, and the variation operators `mutate_individual`
and `crossover_individual`, together with theorems settling the
specification claims about them.

Modelling conventions:
* Python dicts that are only looked up are association lists
  (`List (κ × ν)`) with head-first lookup (`lookupA`); dicts that are
  also iterated (the `defaultdict`s built inside the evaluator) are
  association lists in insertion order, exactly as Python ≥ 3.7
  iterates them.
* A Python exception (KeyError / IndexError) is `none` of an `Option`
  result.
* The float score is a rational: every penalty is a multiple of 0.5,
  which floats represent exactly at these magnitudes.
* The human-readable reason strings are represented by the tagged
  record `Reason` carrying exactly the data interpolated into each
  f-string of the source.
* `random.choice` / `random.random` draws are supplied by explicit
  oracle arguments, universally quantified in the theorems.
-/

/-- A gene: a `(room_id, timeslot_id)` pair. -/
abbrev Gene := String × String

/-- The `rooms_capacity` table: room id → capacity. -/
abbrev RoomsCapacity := List (String × Nat)

/-- The `class_students` table: class id → student count. -/
abbrev ClassStudents := List (String × Nat)

/-- The `teacher_of_lesson` table: lesson position → teacher id. -/
abbrev TeacherOfLesson := List (Nat × String)

/-- One row of the `teacher_info` table.  Each field models the
corresponding optional dict key (`tinfo.get(..., default)` in the
source). -/
structure TeacherInfo where
  teacher_name : Option String := none
  teacher_preferred_periods : Option String := none
  teacher_favorites_subject : Option String := none
  teacher_max_workload : Option Nat := none
deriving DecidableEq

/-- The `teacher_info` table: teacher id → row. -/
abbrev TeacherInfos := List (String × TeacherInfo)

/-- The `class_grade_map` argument of `evaluate_schedule` (passed by the
caller, e.g. `{}` in `main.py`). -/
abbrev ClassGradeMap := List (String × String)

/-- Association-list lookup with decidable equality (Python `dict`
lookup / `dict.get`). -/
def lookupA {κ ν : Type} [DecidableEq κ] (k : κ) : List (κ × ν) → Option ν
  | [] => none
  | (k', v) :: rest => if k = k' then some v else lookupA k rest

/-- The diagnostic reasons appended by `evaluate_schedule`, one
constructor per f-string, carrying the interpolated data. -/
inductive Reason where
  | roomMissing (room : String)
  | capacity (room : String) (cap : Nat) (classId : String) (students : Nat)
  | prefPeriod (teacherName : String) (preferred : List String) (timeslot : String)
  | prefSubject (teacherName : String) (favorites : List String) (subject : String)
  | roomConflict (room : String) (involved : List String) (timeslot : String)
  | teacherConflict (teacherName : String) (classes : List String) (timeslot : String)
  | workload (teacherName : String) (load : Nat) (maxw : Nat)
deriving DecidableEq

/-- Python `s.split("::")` on the character list: split at each
non-overlapping occurrence of `"::"`, left to right (structural
counterpart of Python `str.split` with a two-character separator). -/
def splitColons : List Char → List Char → List (List Char)
  | [], acc => [acc.reverse]
  | [c], acc => [(c :: acc).reverse]
  | c1 :: c2 :: rest, acc =>
    if c1 = ':' ∧ c2 = ':' then acc.reverse :: splitColons rest []
    else splitColons (c2 :: rest) (c1 :: acc)

/-- Python `s.split(",")` on the character list. -/
def splitComma : List Char → List Char → List (List Char)
  | [], acc => [acc.reverse]
  | c :: rest, acc =>
    if c = ',' then acc.reverse :: splitComma rest []
    else splitComma rest (c :: acc)

/-- Python `lesson_id.split("::")` as strings. -/
def lessonParts (lessonId : String) : List String :=
  (splitColons lessonId.data []).map (fun l => (⟨l⟩ : String))

/-- Python `lesson_id.split("::")[0]` (always defined: `split` never returns
an empty list). -/
def lessonClass (lessonId : String) : String :=
  (lessonParts lessonId).headD ""

/-- Python `lesson_id.split("::")[1]`, `none` when the IndexError would be
raised. -/
def lessonSubject (lessonId : String) : Option String :=
  (lessonParts lessonId)[1]?

/-- Python `s.strip()`: drop whitespace from both ends. -/
def pyStrip (s : String) : String :=
  ⟨((s.data.dropWhile Char.isWhitespace).reverse.dropWhile Char.isWhitespace).reverse⟩

/-- Python `[p.strip() for p in s.split(",") if p.strip()]`. -/
def splitCsv (s : String) : List String :=
  ((splitComma s.data []).map (fun l => pyStrip (⟨l⟩ : String))).filter (· ≠ "")

/-- Python `teacher_info.get(tid, {}).get("teacher_name", tid)`. -/
def tinfoName (ti : TeacherInfos) (tid : String) : String :=
  match lookupA tid ti with
  | some i => i.teacher_name.getD tid
  | none => tid

/-- The parsed preferred-period list of a teacher:
`[p.strip() for p in tinfo.get("teacher_preferred_periods", "").split(",") if p.strip()]`. -/
def tinfoPreferred (ti : TeacherInfos) (tid : String) : List String :=
  match lookupA tid ti with
  | some i => splitCsv (i.teacher_preferred_periods.getD "")
  | none => splitCsv ""

/-- The parsed favorite-subject list of a teacher. -/
def tinfoFavorites (ti : TeacherInfos) (tid : String) : List String :=
  match lookupA tid ti with
  | some i => splitCsv (i.teacher_favorites_subject.getD "")
  | none => splitCsv ""

/-- Python `teacher_info.get(tid, {}).get("teacher_max_workload", None)`. -/
def tinfoMaxWorkload (ti : TeacherInfos) (tid : String) : Option Nat :=
  (lookupA tid ti).bind (·.teacher_max_workload)

/-- Python `m[k].append(v)` on a `defaultdict(list)`: update in place when the
key exists, else insert at the end (Python dict insertion order). -/
def updAssoc {κ ν : Type} [DecidableEq κ] (m : List (κ × List ν)) (k : κ) (v : ν) :
    List (κ × List ν) :=
  match m with
  | [] => [(k, [v])]
  | (k', l) :: rest => if k = k' then (k', l ++ [v]) :: rest else (k', l) :: updAssoc rest k v

/-- Python `m[k] += 1` on a `defaultdict(int)`. -/
def incAssoc (m : List (String × Nat)) (k : String) : List (String × Nat) :=
  match m with
  | [] => [(k, 1)]
  | (k', n) :: rest => if k = k' then (k', n + 1) :: rest else (k', n) :: incAssoc rest k

/-- The mutable state of `evaluate_schedule`'s per-gene loop:
`violations`, `reasons`, and the three accumulators
`assigned_room_timeslot`, `teacher_load`, `teacher_schedule`. -/
structure EvalState where
  violations : ℚ
  reasons : List Reason
  occ : List ((String × String) × List (Nat × String))
  load : List (String × Nat)
  sched : List (String × List (String × String))
deriving DecidableEq

/-- The initial evaluator state. -/
def initState : EvalState := ⟨0, [], [], [], []⟩

/-- One iteration of the per-gene loop of `evaluate_schedule`
(`for idx, gene in enumerate(individual)`), for position `idx` holding
gene `g`.  `none` models the exceptions the body can raise:
IndexError on `lesson_instances[idx]` or `split("::")[1]`, KeyError on
`class_students[class_id]`. -/
def geneStep (li : List String) (rc : RoomsCapacity) (cs : ClassStudents)
    (tol : TeacherOfLesson) (ti : TeacherInfos) (idx : Nat) (g : Gene)
    (st : EvalState) : Option EvalState :=
  match li[idx]? with
  | none => none
  | some lessonId =>
    let classId := lessonClass lessonId
    match lessonSubject lessonId with
    | none => none
    | some subject =>
      match lookupA classId cs with
      | none => none
      | some students =>
        match lookupA g.1 rc with
        | none =>
          some { st with violations := st.violations + 10,
                         reasons := st.reasons ++ [Reason.roomMissing g.1] }
        | some cap =>
          let st1 :=
            if cap < students then
              { st with violations := st.violations + ((2 * (students - cap) : Nat) : ℚ),
                        reasons := st.reasons ++ [Reason.capacity g.1 cap classId students] }
            else st
          let st2 := { st1 with occ := updAssoc st1.occ (g.1, g.2) (idx, classId) }
          match lookupA idx tol with
          | none => some st2
          | some tid =>
            if tid = "" then some st2
            else
              let st3 := { st2 with load := incAssoc st2.load tid,
                                    sched := updAssoc st2.sched tid (g.2, classId) }
              let prefs := tinfoPreferred ti tid
              let st4 :=
                if prefs ≠ [] ∧ g.2 ∉ prefs then
                  { st3 with violations := st3.violations + 0.5,
                             reasons := st3.reasons ++
                               [Reason.prefPeriod (tinfoName ti tid) prefs g.2] }
                else st3
              let favs := tinfoFavorites ti tid
              let st5 :=
                if favs ≠ [] ∧ subject ∉ favs then
                  { st4 with violations := st4.violations + 0.5,
                             reasons := st4.reasons ++
                               [Reason.prefSubject (tinfoName ti tid) favs subject] }
                else st4
              some st5

/-- The whole per-gene loop, starting at position `idx`. -/
def evalGenes (li : List String) (rc : RoomsCapacity) (cs : ClassStudents)
    (tol : TeacherOfLesson) (ti : TeacherInfos) (idx : Nat) :
    List Gene → EvalState → Option EvalState
  | [], st => some st
  | g :: rest, st =>
    match geneStep li rc cs tol ti idx g st with
    | none => none
    | some st' => evalGenes li rc cs tol ti (idx + 1) rest st'

/-- The room-conflict pass: iterate `assigned_room_timeslot.items()` in
insertion order; every key whose list has more than one entry adds
`10 * (len - 1)` and one reason naming the involved classes. -/
def roomConflictPass :
    List ((String × String) × List (Nat × String)) → ℚ × List Reason → ℚ × List Reason
  | [], acc => acc
  | ((room, timeslot), lst) :: rest, (v, rs) =>
    if 1 < lst.length then
      roomConflictPass rest
        (v + ((10 * (lst.length - 1) : Nat) : ℚ),
         rs ++ [Reason.roomConflict room (lst.map Prod.snd) timeslot])
    else roomConflictPass rest (v, rs)

/-- The `timeslot_count` grouping: group one teacher's schedule entries by timeslot
(a `defaultdict(list)` built in iteration order). -/
def groupByTimeslot (schedule : List (String × String)) : List (String × List String) :=
  schedule.foldl (fun m p => updAssoc m p.1 p.2) []

/-- Inner loop of the teacher-conflict pass: iterate one teacher's
`timeslot_count.items()`. -/
def teacherSlotPass (ti : TeacherInfos) (tid : String) :
    List (String × List String) → ℚ × List Reason → ℚ × List Reason
  | [], acc => acc
  | (timeslot, classes) :: rest, (v, rs) =>
    if 1 < classes.length then
      teacherSlotPass ti tid rest
        (v + ((10 * (classes.length - 1) : Nat) : ℚ),
         rs ++ [Reason.teacherConflict (tinfoName ti tid) classes timeslot])
    else teacherSlotPass ti tid rest (v, rs)

/-- The teacher-conflict pass: iterate `teacher_schedule.items()`. -/
def teacherConflictPass (ti : TeacherInfos) :
    List (String × List (String × String)) → ℚ × List Reason → ℚ × List Reason
  | [], acc => acc
  | (tid, schedule) :: rest, acc =>
    teacherConflictPass ti rest (teacherSlotPass ti tid (groupByTimeslot schedule) acc)

/-- The workload pass: iterate `teacher_load.items()`; a teacher with a
defined `teacher_max_workload` exceeded by its load adds
`2 * (load - maxw)` and one reason. -/
def workloadPass (ti : TeacherInfos) :
    List (String × Nat) → ℚ × List Reason → ℚ × List Reason
  | [], acc => acc
  | (tid, load) :: rest, (v, rs) =>
    match tinfoMaxWorkload ti tid with
    | some maxw =>
      if maxw < load then
        workloadPass ti rest
          (v + ((2 * (load - maxw) : Nat) : ℚ),
           rs ++ [Reason.workload (tinfoName ti tid) load maxw])
      else workloadPass ti rest (v, rs)
    | none => workloadPass ti rest (v, rs)

set_option linter.unusedVariables false in
/-- Python `evaluate_schedule(individual, lesson_instances, rooms_capacity,
class_students, teacher_of_lesson, teacher_info, class_grade_map)`:
the per-gene loop followed by the room-conflict, teacher-conflict and
workload passes.  Returns the score together with the reasons list the
source attaches to the individual; `none` models a raised exception. -/
def evaluate_schedule (individual : List Gene) (lesson_instances : List String)
    (rooms_capacity : RoomsCapacity) (class_students : ClassStudents)
    (teacher_of_lesson : TeacherOfLesson) (teacher_info : TeacherInfos)
    (class_grade_map : ClassGradeMap) : Option (ℚ × List Reason) :=
  match evalGenes lesson_instances rooms_capacity class_students teacher_of_lesson
      teacher_info 0 individual initState with
  | none => none
  | some st =>
    let acc1 := roomConflictPass st.occ (st.violations, st.reasons)
    let acc2 := teacherConflictPass teacher_info st.sched acc1
    let acc3 := workloadPass teacher_info st.load acc2
    some acc3

/-- Python `random.choice(xs)`: `none` exactly when `xs` is empty (the
IndexError), otherwise the element at an arbitrary oracle-supplied
index reduced mod the length. -/
def randChoice {α : Type} (xs : List α) (r : Nat) : Option α :=
  xs[r % xs.length]?

/-- Python `create_individual(rooms, timeslots, length)`: one uniform draw of
a room and a timeslot per position.  The oracle `rng` supplies the
draws; `none` models the IndexError `random.choice` raises on an empty
domain list. -/
def create_individual (rooms timeslots : List String) (len : Nat) (rng : Nat → Nat) :
    Option (List Gene) :=
  match len with
  | 0 => some []
  | n + 1 =>
    match randChoice rooms (rng 0), randChoice timeslots (rng 1) with
    | some r, some t =>
      (create_individual rooms timeslots n (fun k => rng (k + 2))).map ((r, t) :: ·)
    | _, _ => none

/-- Python `toolbox.population(n=npop)`: `npop` calls of `create_individual`
with genome length `numLessons`. -/
def initPopulation (rooms timeslots : List String) (numLessons npop : Nat)
    (rng : Nat → Nat) : Option (List (List Gene)) :=
  match npop with
  | 0 => some []
  | n + 1 =>
    match create_individual rooms timeslots numLessons rng with
    | none => none
    | some ind =>
      (initPopulation rooms timeslots numLessons n
        (fun k => rng (k + 2 * numLessons))).map (ind :: ·)

/-- Everything `execute_genAlgorithm` does before `eaSimple`'s
generational loop that can touch the problem domains: the source
performs no validation whatsoever of `rooms`, `timeslots`,
`lesson_instances` or `npop`; it registers the DEAP operators and then
directly builds the initial population of `npop` genomes of length
`len(lesson_instances)`. -/
def execute_preLoop (rooms timeslots : List String) (lesson_instances : List String)
    (npop : Nat) (rng : Nat → Nat) : Option (List (List Gene)) :=
  initPopulation rooms timeslots lesson_instances.length npop rng

/-- The per-gene loop of `mutate_individual`, from position `i`.  The
oracle `d` gives the outcome of the two `random.random()` draws at
each position: `none` = no mutation (draw ≥ indpb), `some true` = the
0.6 branch (re-draw the timeslot), `some false` = the other branch
(re-draw the room); `pick` supplies the `random.choice` draw. -/
def mutateAux (rooms timeslots : List String) (d : Nat → Option Bool)
    (pick : Nat → Nat) : Nat → List Gene → Option (List Gene)
  | _, [] => some []
  | i, g :: rest =>
    match d i with
    | none => (mutateAux rooms timeslots d pick (i + 1) rest).map (g :: ·)
    | some true =>
      match randChoice timeslots (pick i) with
      | none => none
      | some t => (mutateAux rooms timeslots d pick (i + 1) rest).map ((g.1, t) :: ·)
    | some false =>
      match randChoice rooms (pick i) with
      | none => none
      | some r => (mutateAux rooms timeslots d pick (i + 1) rest).map ((r, g.2) :: ·)

/-- Python `mutate_individual(individual, rooms, timeslots, indpb)`. -/
def mutate_individual (individual : List Gene) (rooms timeslots : List String)
    (d : Nat → Option Bool) (pick : Nat → Nat) : Option (List Gene) :=
  mutateAux rooms timeslots d pick 0 individual

/-- Python `crossover_individual(ind1, ind2)`: two-point crossover.  `r1`,
`r2` are the oracle draws behind the two `random.randint(1, len-1)`
calls; the sorted cut pair is `(a, b)` and the slice `[a:b]` is
swapped, exactly as the Python slice assignment does. -/
def crossover_individual (ind1 ind2 : List Gene) (r1 r2 : Nat) : List Gene × List Gene :=
  if ind1.length < 2 then (ind1, ind2)
  else
    let a0 := 1 + r1 % (ind1.length - 1)
    let b0 := 1 + r2 % (ind1.length - 1)
    let a := min a0 b0
    let b := max a0 b0
    (ind1.take a ++ (ind2.drop a).take (b - a) ++ ind1.drop b,
     ind2.take a ++ (ind1.drop a).take (b - a) ++ ind2.drop b)

/-- C3: the end-to-end scenario — 3 lesson instances, rooms
{R1: capacity 30, R2: capacity 20}, timeslots {T1, T2}, no teachers,
genome [(R1,T1) for a 25-student class, (R1,T1) for a 10-student
class, (R2,T2) for a 25-student class] — evaluates to total score 20:
room-conflict penalty 10 for the k = 2 collision at (R1,T1) plus
capacity penalty 2 × (25 − 20) = 10 for the third gene, with exactly
one capacity reason and one conflict reason naming both involved
classes. -/
theorem C3_end_to_end_scenario :
    evaluate_schedule [("R1", "T1"), ("R1", "T1"), ("R2", "T2")]
      ["C1::Math::1", "C2::Hist::1", "C3::Geo::1"]
      [("R1", 30), ("R2", 20)]
      [("C1", 25), ("C2", 10), ("C3", 25)]
      [] [] []
    = some (20, [Reason.capacity "R2" 20 "C3" 25,
                 Reason.roomConflict "R1" ["C1", "C2"] "T1"]) := by
  norm_num +decide [evaluate_schedule, evalGenes, geneStep, initState, lookupA,
    lessonClass, lessonSubject, lessonParts, splitColons, splitComma, pyStrip,
    splitCsv, tinfoName, tinfoPreferred, tinfoFavorites, tinfoMaxWorkload,
    updAssoc, incAssoc, roomConflictPass, groupByTimeslot, teacherSlotPass,
    teacherConflictPass, workloadPass]

/-- C10: `evaluate_schedule` gives an identical (score, reasons)
result for any two values of its `class_grade_map` argument — the
parameter is part of the public signature but has no influence on the
result. -/
theorem C10_class_grade_map_has_no_influence (individual : List Gene)
    (lesson_instances : List String) (rooms_capacity : RoomsCapacity)
    (class_students : ClassStudents) (teacher_of_lesson : TeacherOfLesson)
    (teacher_info : TeacherInfos) (cg1 cg2 : ClassGradeMap) :
    evaluate_schedule individual lesson_instances rooms_capacity class_students
        teacher_of_lesson teacher_info cg1 =
      evaluate_schedule individual lesson_instances rooms_capacity class_students
        teacher_of_lesson teacher_info cg2 := rfl

lemma initPopulation_zero_lessons (rooms timeslots : List String) :
    ∀ (npop : Nat) (rng : Nat → Nat),
      initPopulation rooms timeslots 0 npop rng = some (List.replicate npop []) := by
  intro npop
  induction npop with
  | zero => intro rng; rfl
  | succ n ih =>
    intro rng
    simp [initPopulation, create_individual, ih, List.replicate_succ]

lemma create_individual_empty_rooms (timeslots : List String) (len : Nat)
    (rng : Nat → Nat) (hl : 0 < len) :
    create_individual [] timeslots len rng = none := by
  cases len with
  | zero => omega
  | succ n => simp [create_individual, randChoice]

/-- C4 counterexample: with a zero-length lesson-instance list (and
nonempty room/timeslot domains, population 150, the smallest
configuration the claim covers), `execute_genAlgorithm` raises no
error before (or during) creation of the initial population: the
pre-loop phase completes, producing 150 empty genomes.  The claimed
fail-fast configuration check does not exist in the source. -/
theorem C4_counterexample :
    execute_preLoop ["R1"] ["T1"] [] 150 (fun _ => 0) = some (List.replicate 150 []) ∧
    execute_preLoop ["R1"] ["T1"] [] 1 (fun _ => 0) = some [[]] := by
  exact ⟨initPopulation_zero_lessons _ _ 150 _, initPopulation_zero_lessons _ _ 1 _⟩

/-- C4 amended: `execute_genAlgorithm` performs no configuration
validation before the generational loop.  A zero-length lesson list —
even combined with empty domains or `npop < 2` — initializes without
any error, yielding `npop` empty genomes; an empty room list with a
positive lesson count fails only inside `create_individual` (the
IndexError of `random.choice` while the first genome is being
created), not with an explicit pre-initialization check. -/
theorem C4_amended_no_fail_fast (rooms timeslots : List String) (npop len : Nat)
    (rng : Nat → Nat) (hrooms : rooms = []) (hnpop : 0 < npop) (hlen : 0 < len) :
    execute_preLoop rooms timeslots [] npop rng = some (List.replicate npop []) ∧
    initPopulation rooms timeslots len npop rng = none := by
  subst hrooms
  refine ⟨initPopulation_zero_lessons _ _ npop rng, ?_⟩
  cases npop with
  | zero => omega
  | succ n => simp [initPopulation, create_individual_empty_rooms timeslots len _ hlen]

/-- Witness for C4's amended theorem at a concrete input. -/
theorem C4_amended_no_fail_fast_witness :
    execute_preLoop [] ["T1"] [] 2 (fun _ => 0) = some (List.replicate 2 []) ∧
    initPopulation [] ["T1"] 1 2 (fun _ => 0) = none :=
  C4_amended_no_fail_fast [] ["T1"] 2 1 (fun _ => 0) rfl (by decide) (by decide)

lemma splice_getElem {α : Type} (x y : List α) (a b i : Nat) (hab : a ≤ b)
    (hb : b ≤ x.length) (hxy : x.length = y.length) :
    (x.take a ++ (y.drop a).take (b - a) ++ x.drop b)[i]? =
      if i < a then x[i]? else if i < b then y[i]? else x[i]? := by
  have hta : (x.take a).length = a := by
    rw [List.length_take]; omega
  have htm : ((y.drop a).take (b - a)).length = b - a := by
    rw [List.length_take, List.length_drop]; omega
  have h12 : (x.take a ++ (y.drop a).take (b - a)).length = b := by
    rw [List.length_append, hta, htm]; omega
  by_cases hib : i < b
  · rw [List.getElem?_append_left (by rw [h12]; exact hib)]
    by_cases hia : i < a
    · rw [List.getElem?_append_left (by rw [hta]; exact hia),
        List.getElem?_take_of_lt hia, if_pos hia]
    · rw [List.getElem?_append_right (by omega : (x.take a).length ≤ i), hta,
        List.getElem?_take_of_lt (by omega : i - a < b - a), List.getElem?_drop,
        if_neg hia, if_pos hib, show a + (i - a) = i by omega]
  · rw [List.getElem?_append_right (by omega : (x.take a ++ (y.drop a).take (b - a)).length ≤ i),
      h12, List.getElem?_drop, if_neg (by omega : ¬ i < a), if_neg hib,
      show b + (i - b) = i by omega]

/-- C9: for parents of equal length `L`, `crossover_individual`
returns the parents unchanged when `L < 2`; when `L ≥ 2` it returns
two children, both of length `L`, such that at every position each
child's gene equals one of the two parents' genes at that same
position. -/
theorem C9_crossover_two_point (ind1 ind2 : List Gene) (r1 r2 : Nat)
    (hlen : ind1.length = ind2.length) :
    (ind1.length < 2 → crossover_individual ind1 ind2 r1 r2 = (ind1, ind2)) ∧
    (2 ≤ ind1.length →
      (crossover_individual ind1 ind2 r1 r2).1.length = ind1.length ∧
      (crossover_individual ind1 ind2 r1 r2).2.length = ind1.length ∧
      ∀ i : Nat,
        ((crossover_individual ind1 ind2 r1 r2).1[i]? = ind1[i]? ∨
         (crossover_individual ind1 ind2 r1 r2).1[i]? = ind2[i]?) ∧
        ((crossover_individual ind1 ind2 r1 r2).2[i]? = ind1[i]? ∨
         (crossover_individual ind1 ind2 r1 r2).2[i]? = ind2[i]?)) := by
  constructor
  · intro h
    simp only [crossover_individual, if_pos h]
  · intro h
    have hnot : ¬ ind1.length < 2 := by omega
    simp only [crossover_individual, if_neg hnot]
    have hm : 0 < ind1.length - 1 := by omega
    set a0 := 1 + r1 % (ind1.length - 1) with ha0
    set b0 := 1 + r2 % (ind1.length - 1) with hb0
    have ha0lt : a0 ≤ ind1.length - 1 := by
      have := Nat.mod_lt r1 hm; omega
    have hb0lt : b0 ≤ ind1.length - 1 := by
      have := Nat.mod_lt r2 hm; omega
    have hab : min a0 b0 ≤ max a0 b0 := by omega
    have hb1 : max a0 b0 ≤ ind1.length := by omega
    have hb2 : max a0 b0 ≤ ind2.length := by omega
    refine ⟨?_, ?_, ?_⟩
    · simp only [List.length_append, List.length_take, List.length_drop]
      omega
    · simp only [List.length_append, List.length_take, List.length_drop]
      omega
    · intro i
      constructor
      · rw [splice_getElem ind1 ind2 _ _ i hab hb1 hlen]
        split
        · exact Or.inl rfl
        · split
          · exact Or.inr rfl
          · exact Or.inl rfl
      · rw [splice_getElem ind2 ind1 _ _ i hab hb2 hlen.symm]
        split
        · exact Or.inr rfl
        · split
          · exact Or.inl rfl
          · exact Or.inr rfl

/-- Witness for C9 at a concrete pair of two-gene parents. -/
theorem C9_crossover_two_point_witness :
    ([(("R1", "T1") : Gene), ("R2", "T2")].length < 2 →
      crossover_individual [("R1", "T1"), ("R2", "T2")] [("R3", "T3"), ("R4", "T4")] 0 1 =
        ([("R1", "T1"), ("R2", "T2")], [("R3", "T3"), ("R4", "T4")])) ∧
    (2 ≤ ([(("R1", "T1") : Gene), ("R2", "T2")].length) →
      (crossover_individual [("R1", "T1"), ("R2", "T2")] [("R3", "T3"), ("R4", "T4")] 0 1).1.length = 2 ∧
      (crossover_individual [("R1", "T1"), ("R2", "T2")] [("R3", "T3"), ("R4", "T4")] 0 1).2.length = 2 ∧
      ∀ i : Nat,
        ((crossover_individual [("R1", "T1"), ("R2", "T2")] [("R3", "T3"), ("R4", "T4")] 0 1).1[i]? =
            [(("R1", "T1") : Gene), ("R2", "T2")][i]? ∨
         (crossover_individual [("R1", "T1"), ("R2", "T2")] [("R3", "T3"), ("R4", "T4")] 0 1).1[i]? =
            [(("R3", "T3") : Gene), ("R4", "T4")][i]?) ∧
        ((crossover_individual [("R1", "T1"), ("R2", "T2")] [("R3", "T3"), ("R4", "T4")] 0 1).2[i]? =
            [(("R1", "T1") : Gene), ("R2", "T2")][i]? ∨
         (crossover_individual [("R1", "T1"), ("R2", "T2")] [("R3", "T3"), ("R4", "T4")] 0 1).2[i]? =
            [(("R3", "T3") : Gene), ("R4", "T4")][i]?)) :=
  C9_crossover_two_point [("R1", "T1"), ("R2", "T2")] [("R3", "T3"), ("R4", "T4")] 0 1 rfl

lemma randChoice_mem {α : Type} (xs : List α) (r : Nat) (h : xs ≠ []) :
    ∃ a, randChoice xs r = some a ∧ a ∈ xs := by
  have hlen : 0 < xs.length := List.length_pos.mpr h
  have hlt : r % xs.length < xs.length := Nat.mod_lt _ hlen
  exact ⟨xs[r % xs.length], by simp [randChoice, List.getElem?_eq_getElem hlt],
    List.getElem_mem hlt⟩

lemma mutateAux_spec (rooms timeslots : List String) (d : Nat → Option Bool)
    (pick : Nat → Nat) :
    ∀ (genes : List Gene) (i : Nat),
      (∀ g ∈ genes, g.1 ∈ rooms ∧ g.2 ∈ timeslots) →
      ∃ out, mutateAux rooms timeslots d pick i genes = some out ∧
        out.length = genes.length ∧
        (∀ g ∈ out, g.1 ∈ rooms ∧ g.2 ∈ timeslots) ∧
        (∀ (j : Nat) (g o : Gene), genes[j]? = some g → out[j]? = some o →
          o = g ∨ (o.1 = g.1 ∧ o.2 ∈ timeslots) ∨ (o.2 = g.2 ∧ o.1 ∈ rooms)) := by
  intro genes
  induction genes with
  | nil =>
    intro i _
    exact ⟨[], rfl, rfl, by simp, by simp⟩
  | cons g rest ih =>
    intro i h
    have hg : g.1 ∈ rooms ∧ g.2 ∈ timeslots := h g (List.mem_cons_self g rest)
    have hrest : ∀ x ∈ rest, x.1 ∈ rooms ∧ x.2 ∈ timeslots :=
      fun x hx => h x (List.mem_cons_of_mem g hx)
    obtain ⟨out', hout', hlen', hmem', hidx'⟩ := ih (i + 1) hrest
    match hd : d i with
    | none =>
      refine ⟨g :: out', ?_, by simp [hlen'], ?_, ?_⟩
      · simp [mutateAux, hd, hout']
      · intro x hx
        rcases List.mem_cons.mp hx with hx | hx
        · exact hx ▸ hg
        · exact hmem' x hx
      · intro j gj oj hgj hoj
        cases j with
        | zero =>
          simp only [List.getElem?_cons_zero, Option.some_inj] at hgj hoj
          exact Or.inl (hoj ▸ hgj ▸ rfl)
        | succ n =>
          simp only [List.getElem?_cons_succ] at hgj hoj
          exact hidx' n gj oj hgj hoj
    | some true =>
      have hts : timeslots ≠ [] := List.ne_nil_of_mem hg.2
      obtain ⟨t, ht, htm⟩ := randChoice_mem timeslots (pick i) hts
      refine ⟨(g.1, t) :: out', ?_, by simp [hlen'], ?_, ?_⟩
      · simp [mutateAux, hd, ht, hout']
      · intro x hx
        rcases List.mem_cons.mp hx with hx | hx
        · exact hx ▸ ⟨hg.1, htm⟩
        · exact hmem' x hx
      · intro j gj oj hgj hoj
        cases j with
        | zero =>
          simp only [List.getElem?_cons_zero, Option.some_inj] at hgj hoj
          exact Or.inr (Or.inl (by simp [← hoj, ← hgj, htm]))
        | succ n =>
          simp only [List.getElem?_cons_succ] at hgj hoj
          exact hidx' n gj oj hgj hoj
    | some false =>
      have hrm : rooms ≠ [] := List.ne_nil_of_mem hg.1
      obtain ⟨r, hr, hrmem⟩ := randChoice_mem rooms (pick i) hrm
      refine ⟨(r, g.2) :: out', ?_, by simp [hlen'], ?_, ?_⟩
      · simp [mutateAux, hd, hr, hout']
      · intro x hx
        rcases List.mem_cons.mp hx with hx | hx
        · exact hx ▸ ⟨hrmem, hg.2⟩
        · exact hmem' x hx
      · intro j gj oj hgj hoj
        cases j with
        | zero =>
          simp only [List.getElem?_cons_zero, Option.some_inj] at hgj hoj
          exact Or.inr (Or.inr (by simp [← hoj, ← hgj, hrmem]))
        | succ n =>
          simp only [List.getElem?_cons_succ] at hgj hoj
          exact hidx' n gj oj hgj hoj

lemma crossover_mem (ind1 ind2 : List Gene) (r1 r2 : Nat) :
    (∀ g ∈ (crossover_individual ind1 ind2 r1 r2).1, g ∈ ind1 ∨ g ∈ ind2) ∧
    (∀ g ∈ (crossover_individual ind1 ind2 r1 r2).2, g ∈ ind1 ∨ g ∈ ind2) := by
  unfold crossover_individual
  split
  · exact ⟨fun g hg => Or.inl hg, fun g hg => Or.inr hg⟩
  · constructor
    · intro g hg
      simp only [List.mem_append] at hg
      rcases hg with (hg | hg) | hg
      · exact Or.inl (List.take_subset _ _ hg)
      · exact Or.inr (List.drop_subset _ _ (List.take_subset _ _ hg))
      · exact Or.inl (List.drop_subset _ _ hg)
    · intro g hg
      simp only [List.mem_append] at hg
      rcases hg with (hg | hg) | hg
      · exact Or.inr (List.take_subset _ _ hg)
      · exact Or.inl (List.drop_subset _ _ (List.take_subset _ _ hg))
      · exact Or.inr (List.drop_subset _ _ hg)

/-- C8: when every gene of the input genome(s) is drawn from the
supplied room and timeslot lists, `mutate_individual` succeeds and
both it and `crossover_individual` produce genomes whose every gene's
room and timeslot remain members of those domains; moreover every
output gene of `mutate_individual` either equals the corresponding
input gene or differs from it in exactly one component — the room kept
and the timeslot re-drawn from the timeslot domain, or the timeslot
kept and the room re-drawn from the room domain. -/
theorem C8_operators_preserve_domains (rooms timeslots : List String)
    (ind ind1 ind2 : List Gene) (d : Nat → Option Bool) (pick : Nat → Nat)
    (r1 r2 : Nat)
    (hind : ∀ g ∈ ind, g.1 ∈ rooms ∧ g.2 ∈ timeslots)
    (h1 : ∀ g ∈ ind1, g.1 ∈ rooms ∧ g.2 ∈ timeslots)
    (h2 : ∀ g ∈ ind2, g.1 ∈ rooms ∧ g.2 ∈ timeslots) :
    (∃ out, mutate_individual ind rooms timeslots d pick = some out ∧
      (∀ g ∈ out, g.1 ∈ rooms ∧ g.2 ∈ timeslots) ∧
      (∀ (j : Nat) (g o : Gene), ind[j]? = some g → out[j]? = some o →
        o = g ∨ (o.1 = g.1 ∧ o.2 ∈ timeslots) ∨ (o.2 = g.2 ∧ o.1 ∈ rooms))) ∧
    (∀ g ∈ (crossover_individual ind1 ind2 r1 r2).1, g.1 ∈ rooms ∧ g.2 ∈ timeslots) ∧
    (∀ g ∈ (crossover_individual ind1 ind2 r1 r2).2, g.1 ∈ rooms ∧ g.2 ∈ timeslots) := by
  obtain ⟨out, hout, _, hmem, hidx⟩ := mutateAux_spec rooms timeslots d pick ind 0 hind
  obtain ⟨hc1, hc2⟩ := crossover_mem ind1 ind2 r1 r2
  refine ⟨⟨out, hout, hmem, hidx⟩, ?_, ?_⟩
  · intro g hg
    rcases hc1 g hg with h | h
    · exact h1 g h
    · exact h2 g h
  · intro g hg
    rcases hc2 g hg with h | h
    · exact h1 g h
    · exact h2 g h

/-- Witness for C8 at concrete genomes and oracles. -/
theorem C8_operators_preserve_domains_witness :
    (∃ out, mutate_individual [(("R1", "T1") : Gene)] ["R1", "R2"] ["T1", "T2"]
        (fun _ => some true) (fun _ => 1) = some out ∧
      (∀ g ∈ out, g.1 ∈ ["R1", "R2"] ∧ g.2 ∈ ["T1", "T2"]) ∧
      (∀ (j : Nat) (g o : Gene), [(("R1", "T1") : Gene)][j]? = some g → out[j]? = some o →
        o = g ∨ (o.1 = g.1 ∧ o.2 ∈ ["T1", "T2"]) ∨ (o.2 = g.2 ∧ o.1 ∈ ["R1", "R2"]))) ∧
    (∀ g ∈ (crossover_individual [(("R1", "T1") : Gene)] [(("R2", "T2") : Gene)] 0 0).1,
      g.1 ∈ ["R1", "R2"] ∧ g.2 ∈ ["T1", "T2"]) ∧
    (∀ g ∈ (crossover_individual [(("R1", "T1") : Gene)] [(("R2", "T2") : Gene)] 0 0).2,
      g.1 ∈ ["R1", "R2"] ∧ g.2 ∈ ["T1", "T2"]) :=
  C8_operators_preserve_domains ["R1", "R2"] ["T1", "T2"]
    [("R1", "T1")] [("R1", "T1")] [("R2", "T2")]
    (fun _ => some true) (fun _ => 1) 0 0 (by decide) (by decide) (by decide)

/-- C7: when a gene's room is absent from the room-capacity table (and
the per-lesson lookups that the source performs *before* the room
check succeed), the loop body of `evaluate_schedule` adds exactly
penalty 10, records exactly the one missing-room reason, and — because
of the `continue` — leaves the occupancy, load and schedule
accumulators untouched, so no capacity, teacher-preference or
favorite-subject check can fire at that index. -/
theorem C7_unknown_room_short_circuits (li : List String) (rc : RoomsCapacity)
    (cs : ClassStudents) (tol : TeacherOfLesson) (ti : TeacherInfos) (idx : Nat)
    (g : Gene) (st : EvalState) (lessonId : String)
    (hl : li[idx]? = some lessonId)
    (hs : (lessonSubject lessonId).isSome = true)
    (hc : (lookupA (lessonClass lessonId) cs).isSome = true)
    (hr : lookupA g.1 rc = none) :
    geneStep li rc cs tol ti idx g st =
      some { st with violations := st.violations + 10,
                     reasons := st.reasons ++ [Reason.roomMissing g.1] } := by
  obtain ⟨subj, hsubj⟩ := Option.isSome_iff_exists.mp hs
  obtain ⟨stu, hstu⟩ := Option.isSome_iff_exists.mp hc
  simp [geneStep, hl, hsubj, hstu, hr]

/-- Witness for C7 at a concrete unknown room `R9`. -/
theorem C7_unknown_room_short_circuits_witness :
    geneStep ["C1::Math::1"] [] [("C1", 25)] [] [] 0 ("R9", "T1") initState =
      some { initState with
               violations := initState.violations + 10,
               reasons := initState.reasons ++ [Reason.roomMissing "R9"] } :=
  C7_unknown_room_short_circuits ["C1::Math::1"] [] [("C1", 25)] [] [] 0
    ("R9", "T1") initState "C1::Math::1" rfl (by decide) (by decide) rfl

/-- Whether position `idx` survives the per-gene loop body without an
exception: the lesson id exists, has a second `::`-field, and its
class id is in the class-size table.  These are the only failure
points of the body — the gene's room and teacher never cause one. -/
def geneOk (li : List String) (cs : ClassStudents) (idx : Nat) : Bool :=
  match li[idx]? with
  | none => false
  | some lessonId =>
    match lessonSubject lessonId with
    | none => false
    | some _ =>
      match lookupA (lessonClass lessonId) cs with
      | none => false
      | some _ => true

lemma geneStep_isSome (li : List String) (rc : RoomsCapacity) (cs : ClassStudents)
    (tol : TeacherOfLesson) (ti : TeacherInfos) (idx : Nat) (g : Gene)
    (st : EvalState) :
    (geneStep li rc cs tol ti idx g st).isSome = geneOk li cs idx := by
  cases h1 : li[idx]? with
  | none => simp [geneStep, geneOk, h1]
  | some lessonId =>
    cases h2 : lessonSubject lessonId with
    | none => simp [geneStep, geneOk, h1, h2]
    | some subj =>
      cases h3 : lookupA (lessonClass lessonId) cs with
      | none => simp [geneStep, geneOk, h1, h2, h3]
      | some stu =>
        cases h4 : lookupA g.1 rc with
        | none => simp [geneStep, geneOk, h1, h2, h3, h4]
        | some cap =>
          cases h5 : lookupA idx tol with
          | none => simp [geneStep, geneOk, h1, h2, h3, h4, h5]
          | some tid =>
            by_cases h6 : tid = "" <;>
              simp [geneStep, geneOk, h1, h2, h3, h4, h5, h6]

lemma evalGenes_isSome (li : List String) (rc : RoomsCapacity) (cs : ClassStudents)
    (tol : TeacherOfLesson) (ti : TeacherInfos) :
    ∀ (genes : List Gene) (idx : Nat) (st : EvalState),
      (evalGenes li rc cs tol ti idx genes st).isSome = true ↔
        ∀ j, j < genes.length → geneOk li cs (idx + j) = true := by
  intro genes
  induction genes with
  | nil => intro idx st; simp [evalGenes]
  | cons g rest ih =>
    intro idx st
    have hstep := geneStep_isSome li rc cs tol ti idx g st
    cases hs : geneStep li rc cs tol ti idx g st with
    | none =>
      rw [hs] at hstep
      simp only [evalGenes, hs, Option.isSome_none]
      constructor
      · intro h; cases h
      · intro h
        have h0 := h 0 (by simp)
        rw [Nat.add_zero] at h0
        rw [← hstep] at h0
        cases h0
    | some st' =>
      rw [hs] at hstep
      simp only [evalGenes, hs]
      rw [ih (idx + 1) st']
      constructor
      · intro h j hj
        cases j with
        | zero => rw [Nat.add_zero, ← hstep]; rfl
        | succ n =>
          have := h n (by simpa using Nat.lt_of_succ_lt_succ hj)
          rw [show idx + (n + 1) = idx + 1 + n by omega]
          exact this
      · intro h j hj
        have := h (j + 1) (by simpa using Nat.succ_lt_succ hj)
        rw [show idx + 1 + j = idx + (j + 1) by omega]
        exact this

/-- C5 counterexample: `evaluate_schedule` *does* raise on malformed
per-lesson data.  A lesson whose class id (`CX`) is absent from the
class-size table raises KeyError, and a lesson id with no second
`::`-field raises IndexError — modelled as the `none` result — even
though the genome and configuration tables are otherwise fine. -/
theorem C5_counterexample :
    evaluate_schedule [("R1", "T1")] ["CX::Math::1"] [("R1", 30)] [] [] [] [] = none ∧
    evaluate_schedule [("R1", "T1")] ["NoSeparator"] [("R1", 30)]
      [("NoSeparator", 10)] [] [] [] = none := by
  constructor <;> decide

/-- C5 amended: `evaluate_schedule` completes (returning a best-effort
(score, reasons) result) exactly when every genome position has a
lesson id with a second `::`-field whose class id is in the class-size
table.  An unknown room or an unknown teacher id never makes it fail,
but a missing class-size entry, a malformed lesson id, or a genome
longer than the lesson list raises (KeyError / IndexError). -/
theorem C5_amended_total_iff_lessons_parse (individual : List Gene)
    (lesson_instances : List String) (rooms_capacity : RoomsCapacity)
    (class_students : ClassStudents) (teacher_of_lesson : TeacherOfLesson)
    (teacher_info : TeacherInfos) (class_grade_map : ClassGradeMap) :
    (evaluate_schedule individual lesson_instances rooms_capacity class_students
        teacher_of_lesson teacher_info class_grade_map).isSome = true ↔
      ∀ j, j < individual.length → geneOk lesson_instances class_students j = true := by
  have h := evalGenes_isSome lesson_instances rooms_capacity class_students
    teacher_of_lesson teacher_info individual 0 initState
  simp only [Nat.zero_add] at h
  rw [← h]
  unfold evaluate_schedule
  cases hev : evalGenes lesson_instances rooms_capacity class_students
      teacher_of_lesson teacher_info 0 individual initState <;> simp [hev]

/-- C6 counterexample: a lesson whose assigned teacher (`T9`) is
absent from the teacher-info table evaluates to score 0 with an empty
reasons list — the missing entry is *not* folded into the violation
score as a heavy penalty and no reason surfaces it. -/
theorem C6_counterexample :
    evaluate_schedule [("R1", "T1")] ["C1::Math::1"] [("R1", 30)] [("C1", 25)]
      [(0, "T9")] [] [] = some (0, []) := by
  norm_num +decide [evaluate_schedule, evalGenes, geneStep, initState, lookupA,
    lessonClass, lessonSubject, lessonParts, splitColons, splitComma, pyStrip,
    splitCsv, tinfoName, tinfoPreferred, tinfoFavorites, tinfoMaxWorkload,
    updAssoc, incAssoc, roomConflictPass, groupByTimeslot, teacherSlotPass,
    teacherConflictPass, workloadPass]

/-- C6 amended: a teacher id absent from the teacher-info table is not
a fatal error, but neither is it penalized or surfaced: the loop body
of `evaluate_schedule` treats the teacher as having an empty profile
(no preferred periods, no favorite subjects, no max workload), adds no
penalty and no reason at that index (shown here with the room present
and within capacity so that only the teacher checks are in play), and
only accumulates the lesson into the teacher's load and schedule. -/
theorem C6_missing_teacher_info_tolerated (li : List String) (rc : RoomsCapacity)
    (cs : ClassStudents) (tol : TeacherOfLesson) (ti : TeacherInfos) (idx : Nat)
    (g : Gene) (st : EvalState) (lessonId : String) (subject : String)
    (students cap : Nat) (tid : String)
    (hl : li[idx]? = some lessonId)
    (hs : lessonSubject lessonId = some subject)
    (hc : lookupA (lessonClass lessonId) cs = some students)
    (hr : lookupA g.1 rc = some cap)
    (hcap : students ≤ cap)
    (htid : lookupA idx tol = some tid)
    (hne : tid ≠ "")
    (hmiss : lookupA tid ti = none) :
    geneStep li rc cs tol ti idx g st =
      some { st with occ := updAssoc st.occ (g.1, g.2) (idx, lessonClass lessonId),
                     load := incAssoc st.load tid,
                     sched := updAssoc st.sched tid (g.2, lessonClass lessonId) } := by
  have hnc : ¬ cap < students := by omega
  have hempty : splitCsv "" = [] := by decide
  have hpref : tinfoPreferred ti tid = [] := by
    simp [tinfoPreferred, hmiss, hempty]
  have hfav : tinfoFavorites ti tid = [] := by
    simp [tinfoFavorites, hmiss, hempty]
  simp [geneStep, hl, hs, hc, hr, hnc, htid, hne, hpref, hfav]

/-- Witness for C6's amended theorem at a concrete missing teacher. -/
theorem C6_missing_teacher_info_tolerated_witness :
    geneStep ["C1::Math::1"] [("R1", 30)] [("C1", 25)] [(0, "T9")] [] 0
        ("R1", "T1") initState =
      some { initState with
               occ := updAssoc initState.occ ("R1", "T1") (0, lessonClass "C1::Math::1"),
               load := incAssoc initState.load "T9",
               sched := updAssoc initState.sched "T9" ("T1", lessonClass "C1::Math::1") } :=
  C6_missing_teacher_info_tolerated ["C1::Math::1"] [("R1", 30)] [("C1", 25)]
    [(0, "T9")] [] 0 ("R1", "T1") initState "C1::Math::1" "Math" 25 30 "T9"
    rfl (by decide) (by decide) (by decide) (by decide) (by decide) (by decide) rfl

/-- Occurrence count of an element (used to state position-independence
of the conflict penalties). -/
def countKey {α : Type} [DecidableEq α] (k : α) : List α → Nat
  | [] => 0
  | x :: xs => (if x = k then 1 else 0) + countKey k xs

/-- The values attached to key `k` among a list of events, in order. -/
def valuesFor {κ ν : Type} [DecidableEq κ] (k : κ) : List (κ × ν) → List ν
  | [] => []
  | e :: es => if e.1 = k then e.2 :: valuesFor k es else valuesFor k es

/-- Remove the (first) entry with key `k` from an association list. -/
def eraseKey {κ ν : Type} [DecidableEq κ] (k : κ) : List (κ × ν) → List (κ × ν)
  | [] => []
  | e :: rest => if e.1 = k then rest else e :: eraseKey k rest

/-- Replay a list of `defaultdict(list)` append events. -/
def foldUpd {κ ν : Type} [DecidableEq κ] (m : List (κ × List ν)) :
    List (κ × ν) → List (κ × List ν)
  | [] => m
  | e :: es => foldUpd (updAssoc m e.1 e.2) es

/-- Replay a list of `defaultdict(int)` increment events. -/
def foldInc (m : List (String × Nat)) : List String → List (String × Nat)
  | [] => m
  | k :: ks => foldInc (incAssoc m k) ks

lemma lookupA_updAssoc {κ ν : Type} [DecidableEq κ] (m : List (κ × List ν))
    (k k' : κ) (v : ν) :
    lookupA k' (updAssoc m k v) =
      if k' = k then some (((lookupA k m).getD []) ++ [v]) else lookupA k' m := by
  induction m with
  | nil =>
    by_cases h : k' = k <;> simp [updAssoc, lookupA, h]
  | cons e rest ih =>
    obtain ⟨k₀, l₀⟩ := e
    by_cases h0 : k = k₀
    · subst h0
      by_cases h1 : k' = k <;> simp [updAssoc, lookupA, h1]
    · by_cases h1 : k' = k₀
      · have h2 : ¬ k' = k := fun h => h0 (h ▸ h1)
        have h3 : ¬ k₀ = k := fun h => h0 h.symm
        simp [updAssoc, lookupA, h0, h1, h2, h3]
      · simp [updAssoc, lookupA, h0, h1, ih]

lemma keys_updAssoc {κ ν : Type} [DecidableEq κ] (m : List (κ × List ν)) (k : κ) (v : ν) :
    (updAssoc m k v).map Prod.fst =
      if (lookupA k m).isSome then m.map Prod.fst else m.map Prod.fst ++ [k] := by
  induction m with
  | nil => simp [updAssoc, lookupA]
  | cons e rest ih =>
    obtain ⟨k₀, l₀⟩ := e
    by_cases h0 : k = k₀
    · subst h0; simp [updAssoc, lookupA]
    · simp only [updAssoc, if_neg h0, List.map_cons, lookupA, ih]
      by_cases h1 : (lookupA k rest).isSome <;> simp [h1]

lemma lookupA_eq_none_iff {κ ν : Type} [DecidableEq κ] (m : List (κ × ν)) (k : κ) :
    lookupA k m = none ↔ k ∉ m.map Prod.fst := by
  induction m with
  | nil => simp [lookupA]
  | cons e rest ih =>
    by_cases h : k = e.1 <;> simp [lookupA, h, ih]

lemma nodup_keys_updAssoc {κ ν : Type} [DecidableEq κ] (m : List (κ × List ν))
    (k : κ) (v : ν) (h : (m.map Prod.fst).Nodup) :
    ((updAssoc m k v).map Prod.fst).Nodup := by
  rw [keys_updAssoc]
  by_cases h1 : (lookupA k m).isSome
  · simpa [h1]
  · have hk : k ∉ m.map Prod.fst :=
      (lookupA_eq_none_iff m k).mp (Option.not_isSome_iff_eq_none.mp h1)
    simp [h1, List.nodup_append, h, hk]

lemma nodup_keys_foldUpd {κ ν : Type} [DecidableEq κ] (es : List (κ × ν)) :
    ∀ (m : List (κ × List ν)), (m.map Prod.fst).Nodup →
      ((foldUpd m es).map Prod.fst).Nodup := by
  induction es with
  | nil => intro m h; simpa [foldUpd]
  | cons e rest ih =>
    intro m h
    exact ih _ (nodup_keys_updAssoc m e.1 e.2 h)

lemma lookupA_of_mem_nodup {κ ν : Type} [DecidableEq κ] (m : List (κ × ν))
    (k : κ) (l : ν) (hnd : (m.map Prod.fst).Nodup) (hm : (k, l) ∈ m) :
    lookupA k m = some l := by
  induction m with
  | nil => cases hm
  | cons e rest ih =>
    rcases List.mem_cons.mp hm with he | he
    · rw [← he]; simp [lookupA]
    · have hk : k ∈ rest.map Prod.fst := List.mem_map.mpr ⟨(k, l), he, rfl⟩
      have hne : k ≠ e.1 := by
        intro h
        subst h
        exact (List.nodup_cons.mp (by simpa using hnd)).1 hk
      simp only [lookupA, if_neg hne]
      exact ih (List.nodup_cons.mp (by simpa using hnd)).2 he

lemma lookupA_foldUpd {κ ν : Type} [DecidableEq κ] (es : List (κ × ν)) :
    ∀ (m : List (κ × List ν)) (k : κ),
      lookupA k (foldUpd m es) =
        match lookupA k m, valuesFor k es with
        | some l, vs => some (l ++ vs)
        | none, [] => none
        | none, v :: vs => some (v :: vs) := by
  induction es with
  | nil =>
    intro m k
    cases h : lookupA k m <;> simp [foldUpd, valuesFor, h]
  | cons e rest ih =>
    intro m k
    rw [show foldUpd m (e :: rest) = foldUpd (updAssoc m e.1 e.2) rest from rfl, ih]
    rw [lookupA_updAssoc m e.1 k e.2]
    by_cases hk : k = e.1
    · rw [if_pos hk]
      have hv : valuesFor k (e :: rest) = e.2 :: valuesFor k rest := by
        simp [valuesFor, hk.symm]
      rw [hv, hk]
      cases h : lookupA e.1 m <;> simp [h, List.append_assoc]
    · rw [if_neg hk]
      have hne : ¬ e.1 = k := fun h => hk h.symm
      have hv : valuesFor k (e :: rest) = valuesFor k rest := by
        simp [valuesFor, hne]
      rw [hv]

lemma lookupA_incAssoc (m : List (String × Nat)) (k k' : String) :
    lookupA k' (incAssoc m k) =
      if k' = k then some (((lookupA k m).getD 0) + 1) else lookupA k' m := by
  induction m with
  | nil =>
    by_cases h : k' = k <;> simp [incAssoc, lookupA, h]
  | cons e rest ih =>
    obtain ⟨k₀, n₀⟩ := e
    by_cases h0 : k = k₀
    · subst h0
      by_cases h1 : k' = k <;> simp [incAssoc, lookupA, h1]
    · by_cases h1 : k' = k₀
      · have h2 : ¬ k' = k := fun h => h0 (h ▸ h1)
        have h3 : ¬ k₀ = k := fun h => h0 h.symm
        simp [incAssoc, lookupA, h0, h1, h2, h3]
      · simp [incAssoc, lookupA, h0, h1, ih]

lemma keys_incAssoc (m : List (String × Nat)) (k : String) :
    (incAssoc m k).map Prod.fst =
      if (lookupA k m).isSome then m.map Prod.fst else m.map Prod.fst ++ [k] := by
  induction m with
  | nil => simp [incAssoc, lookupA]
  | cons e rest ih =>
    obtain ⟨k₀, n₀⟩ := e
    by_cases h0 : k = k₀
    · subst h0; simp [incAssoc, lookupA]
    · simp only [incAssoc, if_neg h0, List.map_cons, lookupA, ih]
      by_cases h1 : (lookupA k rest).isSome <;> simp [h1]

lemma nodup_keys_incAssoc (m : List (String × Nat)) (k : String)
    (h : (m.map Prod.fst).Nodup) : ((incAssoc m k).map Prod.fst).Nodup := by
  rw [keys_incAssoc]
  by_cases h1 : (lookupA k m).isSome
  · simpa [h1]
  · have hk : k ∉ m.map Prod.fst :=
      (lookupA_eq_none_iff m k).mp (Option.not_isSome_iff_eq_none.mp h1)
    simp [h1, List.nodup_append, h, hk]

lemma nodup_keys_foldInc (ks : List String) :
    ∀ m : List (String × Nat), (m.map Prod.fst).Nodup →
      ((foldInc m ks).map Prod.fst).Nodup := by
  induction ks with
  | nil => intro m h; simpa [foldInc]
  | cons k rest ih =>
    intro m h
    exact ih _ (nodup_keys_incAssoc m k h)

lemma lookupA_foldInc (ks : List String) :
    ∀ (m : List (String × Nat)) (k : String),
      lookupA k (foldInc m ks) =
        match lookupA k m, countKey k ks with
        | some n, c => some (n + c)
        | none, 0 => none
        | none, c + 1 => some (c + 1) := by
  induction ks with
  | nil =>
    intro m k
    cases h : lookupA k m <;> simp [foldInc, countKey, h]
  | cons k₀ rest ih =>
    intro m k
    rw [show foldInc m (k₀ :: rest) = foldInc (incAssoc m k₀) rest from rfl, ih]
    rw [lookupA_incAssoc m k₀ k]
    by_cases hk : k = k₀
    · rw [if_pos hk]
      have hc : countKey k (k₀ :: rest) = 1 + countKey k rest := by
        simp [countKey, hk.symm]
      rw [hc, hk]
      cases h : lookupA k₀ m <;> cases hcr : countKey k₀ rest <;>
        simp [h, hcr] <;> omega
    · rw [if_neg hk]
      have hne : ¬ k₀ = k := fun h => hk h.symm
      have hc : countKey k (k₀ :: rest) = countKey k rest := by
        simp [countKey, hne]
      rw [hc]

/-- The teacher the source considers assigned at position `idx`:
`teacher_of_lesson.get(idx, None)` filtered through Python truthiness
(`if teacher_id:`). -/
def assignedTeacher (tol : TeacherOfLesson) (idx : Nat) : Option String :=
  match lookupA idx tol with
  | none => none
  | some tid => if tid = "" then none else some tid

/-- The `assigned_room_timeslot` append events the per-gene loop emits
from position `idx` on: one event per gene whose lesson id exists and
whose room is in the capacity table. -/
def occEvents (li : List String) (rc : RoomsCapacity) :
    Nat → List Gene → List ((String × String) × (Nat × String))
  | _, [] => []
  | idx, g :: rest =>
    (match li[idx]? with
     | none => []
     | some lessonId =>
       match lookupA g.1 rc with
       | none => []
       | some _ => [((g.1, g.2), (idx, lessonClass lessonId))]) ++
    occEvents li rc (idx + 1) rest

/-- The `teacher_schedule` append events (whose keys are also the
`teacher_load` increment events): one per gene with a known room and a
truthy assigned teacher. -/
def teacherEvents (li : List String) (rc : RoomsCapacity) (tol : TeacherOfLesson) :
    Nat → List Gene → List (String × (String × String))
  | _, [] => []
  | idx, g :: rest =>
    (match li[idx]? with
     | none => []
     | some lessonId =>
       match lookupA g.1 rc with
       | none => []
       | some _ =>
         match assignedTeacher tol idx with
         | none => []
         | some tid => [(tid, (g.2, lessonClass lessonId))]) ++
    teacherEvents li rc tol (idx + 1) rest

lemma foldUpd_append {κ ν : Type} [DecidableEq κ] (es₁ : List (κ × ν)) :
    ∀ (es₂ : List (κ × ν)) (m : List (κ × List ν)),
      foldUpd m (es₁ ++ es₂) = foldUpd (foldUpd m es₁) es₂ := by
  induction es₁ with
  | nil => intro es₂ m; rfl
  | cons e rest ih => intro es₂ m; exact ih es₂ (updAssoc m e.1 e.2)

lemma foldInc_append (ks₁ : List String) :
    ∀ (ks₂ : List String) (m : List (String × Nat)),
      foldInc m (ks₁ ++ ks₂) = foldInc (foldInc m ks₁) ks₂ := by
  induction ks₁ with
  | nil => intro ks₂ m; rfl
  | cons k rest ih => intro ks₂ m; exact ih ks₂ (incAssoc m k)

lemma geneStep_proj (li : List String) (rc : RoomsCapacity) (cs : ClassStudents)
    (tol : TeacherOfLesson) (ti : TeacherInfos) (idx : Nat) (g : Gene)
    (st st' : EvalState) (h : geneStep li rc cs tol ti idx g st = some st') :
    st'.occ = foldUpd st.occ (occEvents li rc idx [g]) ∧
    st'.sched = foldUpd st.sched (teacherEvents li rc tol idx [g]) ∧
    st'.load = foldInc st.load ((teacherEvents li rc tol idx [g]).map Prod.fst) := by
  cases h1 : li[idx]? with
  | none => simp [geneStep, h1] at h
  | some lessonId =>
    cases h2 : lessonSubject lessonId with
    | none => simp [geneStep, h1, h2] at h
    | some subj =>
      cases h3 : lookupA (lessonClass lessonId) cs with
      | none => simp [geneStep, h1, h2, h3] at h
      | some stu =>
        cases h4 : lookupA g.1 rc with
        | none =>
          simp only [geneStep, h1, h2, h3, h4, Option.some_inj] at h
          subst h
          simp [occEvents, teacherEvents, h1, h4, foldUpd, foldInc]
        | some cap =>
          cases h5 : lookupA idx tol with
          | none =>
            simp only [geneStep, h1, h2, h3, h4, h5, Option.some_inj] at h
            subst h
            have hat : assignedTeacher tol idx = none := by
              simp [assignedTeacher, h5]
            split_ifs <;>
              simp [occEvents, teacherEvents, h1, h4, hat, foldUpd, foldInc]
          | some tid =>
            by_cases h6 : tid = ""
            · simp only [geneStep, h1, h2, h3, h4, h5] at h
              rw [if_pos h6, Option.some_inj] at h
              subst h
              have hat : assignedTeacher tol idx = none := by
                simp [assignedTeacher, h5, h6]
              split_ifs <;>
                simp [occEvents, teacherEvents, h1, h4, hat, foldUpd, foldInc]
            · simp only [geneStep, h1, h2, h3, h4, h5, if_neg h6,
                Option.some_inj] at h
              subst h
              have hat : assignedTeacher tol idx = some tid := by
                simp [assignedTeacher, h5, h6]
              split_ifs <;>
                simp [occEvents, teacherEvents, h1, h4, hat, foldUpd, foldInc]

lemma evalGenes_proj (li : List String) (rc : RoomsCapacity) (cs : ClassStudents)
    (tol : TeacherOfLesson) (ti : TeacherInfos) :
    ∀ (genes : List Gene) (idx : Nat) (st st' : EvalState),
      evalGenes li rc cs tol ti idx genes st = some st' →
      st'.occ = foldUpd st.occ (occEvents li rc idx genes) ∧
      st'.sched = foldUpd st.sched (teacherEvents li rc tol idx genes) ∧
      st'.load = foldInc st.load ((teacherEvents li rc tol idx genes).map Prod.fst) := by
  intro genes
  induction genes with
  | nil =>
    intro idx st st' h
    simp only [evalGenes, Option.some_inj] at h
    subst h
    simp [occEvents, teacherEvents, foldUpd, foldInc]
  | cons g rest ih =>
    intro idx st st' h
    cases hs : geneStep li rc cs tol ti idx g st with
    | none => simp [evalGenes, hs] at h
    | some st₁ =>
      simp only [evalGenes, hs] at h
      obtain ⟨iho, ihs, ihl⟩ := ih (idx + 1) st₁ st' h
      obtain ⟨po, ps, pl⟩ := geneStep_proj li rc cs tol ti idx g st st₁ hs
      have hocc : occEvents li rc idx (g :: rest) =
          occEvents li rc idx [g] ++ occEvents li rc (idx + 1) rest := by
        simp [occEvents]
      have hte : teacherEvents li rc tol idx (g :: rest) =
          teacherEvents li rc tol idx [g] ++ teacherEvents li rc tol (idx + 1) rest := by
        simp [teacherEvents]
      refine ⟨?_, ?_, ?_⟩
      · rw [hocc, foldUpd_append, ← po, iho]
      · rw [hte, foldUpd_append, ← ps, ihs]
      · rw [hte, List.map_append, foldInc_append, ← pl, ihl]

lemma roomConflictPass_id :
    ∀ (occ : List ((String × String) × List (Nat × String))) (v : ℚ) (rs : List Reason),
      (∀ e ∈ occ, e.2.length ≤ 1) → roomConflictPass occ (v, rs) = (v, rs) := by
  intro occ
  induction occ with
  | nil => intro v rs _; rfl
  | cons e rest ih =>
    intro v rs h
    obtain ⟨⟨room, ts⟩, lst⟩ := e
    have hlen : lst.length ≤ 1 := by simpa using h _ (List.mem_cons_self _ _)
    have hnot : ¬ 1 < lst.length := by omega
    simp only [roomConflictPass, if_neg hnot]
    exact ih v rs (fun e he => h e (List.mem_cons_of_mem _ he))

lemma teacherSlotPass_id (ti : TeacherInfos) (tid : String) :
    ∀ (groups : List (String × List String)) (v : ℚ) (rs : List Reason),
      (∀ e ∈ groups, e.2.length ≤ 1) → teacherSlotPass ti tid groups (v, rs) = (v, rs) := by
  intro groups
  induction groups with
  | nil => intro v rs _; rfl
  | cons e rest ih =>
    intro v rs h
    obtain ⟨ts, classes⟩ := e
    have hlen : classes.length ≤ 1 := by simpa using h _ (List.mem_cons_self _ _)
    have hnot : ¬ 1 < classes.length := by omega
    simp only [teacherSlotPass, if_neg hnot]
    exact ih v rs (fun e he => h e (List.mem_cons_of_mem _ he))

lemma teacherConflictPass_id (ti : TeacherInfos) :
    ∀ (sched : List (String × List (String × String))) (v : ℚ) (rs : List Reason),
      (∀ e ∈ sched, ∀ e' ∈ groupByTimeslot e.2, e'.2.length ≤ 1) →
      teacherConflictPass ti sched (v, rs) = (v, rs) := by
  intro sched
  induction sched with
  | nil => intro v rs _; rfl
  | cons e rest ih =>
    intro v rs h
    obtain ⟨tid, schedule⟩ := e
    have hgrp := h _ (List.mem_cons_self _ _)
    simp only [teacherConflictPass]
    rw [teacherSlotPass_id ti tid (groupByTimeslot schedule) v rs (by simpa using hgrp)]
    exact ih v rs (fun e he => h e (List.mem_cons_of_mem _ he))

lemma workloadPass_id (ti : TeacherInfos) :
    ∀ (loads : List (String × Nat)) (v : ℚ) (rs : List Reason),
      (∀ e ∈ loads, ∀ maxw, tinfoMaxWorkload ti e.1 = some maxw → e.2 ≤ maxw) →
      workloadPass ti loads (v, rs) = (v, rs) := by
  intro loads
  induction loads with
  | nil => intro v rs _; rfl
  | cons e rest ih =>
    intro v rs h
    obtain ⟨tid, load⟩ := e
    cases hm : tinfoMaxWorkload ti tid with
    | none =>
      simp only [workloadPass, hm]
      exact ih v rs (fun e he => h e (List.mem_cons_of_mem _ he))
    | some maxw =>
      have hle : load ≤ maxw := h _ (List.mem_cons_self _ _) maxw (by simpa using hm)
      have hnot : ¬ maxw < load := by omega
      simp only [workloadPass, hm, if_neg hnot]
      exact ih v rs (fun e he => h e (List.mem_cons_of_mem _ he))

lemma groupByTimeslot_eq_foldUpd (schedule : List (String × String)) :
    groupByTimeslot schedule = foldUpd [] schedule := by
  show List.foldl (fun m p => updAssoc m p.1 p.2) [] schedule = foldUpd [] schedule
  generalize ([] : List (String × List String)) = m
  induction schedule generalizing m with
  | nil => rfl
  | cons e rest ih => exact ih (updAssoc m e.1 e.2)

lemma roomConflictPass_fst :
    ∀ (occ : List ((String × String) × List (Nat × String))) (v : ℚ) (rs : List Reason),
      (roomConflictPass occ (v, rs)).1 = v + (roomConflictPass occ (0, [])).1 := by
  intro occ
  induction occ with
  | nil => intro v rs; simp [roomConflictPass]
  | cons e rest ih =>
    intro v rs
    obtain ⟨⟨room, ts⟩, lst⟩ := e
    by_cases hlen : 1 < lst.length
    · simp only [roomConflictPass, if_pos hlen]
      rw [ih, ih ((0 : ℚ) + _)]
      ring
    · simp only [roomConflictPass, if_neg hlen]
      exact ih v rs

lemma roomConflictPass_snd :
    ∀ (occ : List ((String × String) × List (Nat × String))) (v : ℚ) (rs : List Reason),
      (roomConflictPass occ (v, rs)).2 = rs ++ (roomConflictPass occ (0, [])).2 := by
  intro occ
  induction occ with
  | nil => intro v rs; simp [roomConflictPass]
  | cons e rest ih =>
    intro v rs
    obtain ⟨⟨room, ts⟩, lst⟩ := e
    by_cases hlen : 1 < lst.length
    · simp only [roomConflictPass, if_pos hlen]
      rw [ih, ih (0 + _) ([] ++ _)]
      simp
    · simp only [roomConflictPass, if_neg hlen]
      exact ih v rs

lemma roomConflictPass_erase (r t : String) :
    ∀ (occ : List ((String × String) × List (Nat × String))) (l : List (Nat × String)),
      lookupA (r, t) occ = some l → 1 < l.length →
      (roomConflictPass occ ((0 : ℚ), ([] : List Reason))).1 =
        (roomConflictPass (eraseKey (r, t) occ) (0, [])).1 +
          ((10 * (l.length - 1) : Nat) : ℚ) := by
  intro occ
  induction occ with
  | nil => intro l hl; simp [lookupA] at hl
  | cons e rest ih =>
    intro l hl hlen
    obtain ⟨⟨room, ts⟩, lst⟩ := e
    by_cases hk : (r, t) = (room, ts)
    · rw [lookupA, if_pos hk] at hl
      rw [Option.some_inj] at hl
      subst hl
      have hke : ((room, ts), lst).1 = (r, t) := hk.symm
      simp only [eraseKey, if_pos hke]
      simp only [roomConflictPass, if_pos hlen]
      rw [roomConflictPass_fst]
      ring
    · rw [lookupA, if_neg hk] at hl
      have hke : ¬ ((room, ts), lst).1 = (r, t) := fun h => hk h.symm
      simp only [eraseKey, if_neg hke]
      by_cases hl2 : 1 < lst.length
      · simp only [roomConflictPass, if_pos hl2]
        rw [roomConflictPass_fst, roomConflictPass_fst (eraseKey (r, t) rest)]
        rw [ih l hl hlen]
        ring
      · simp only [roomConflictPass, if_neg hl2]
        exact ih l hl hlen

/-- Recognizer for the room-conflict reason at key `(r, t)`. -/
def isRoomConflictAt (r t : String) : Reason → Bool
  | Reason.roomConflict r' _ t' => decide (r' = r ∧ t' = t)
  | _ => false

lemma roomConflictPass_filter_not_mem (r t : String) :
    ∀ (occ : List ((String × String) × List (Nat × String))),
      (r, t) ∉ occ.map Prod.fst →
      ((roomConflictPass occ ((0 : ℚ), ([] : List Reason))).2).filter
        (isRoomConflictAt r t) = [] := by
  intro occ
  induction occ with
  | nil => intro _; simp [roomConflictPass]
  | cons e rest ih =>
    intro h
    obtain ⟨⟨room, ts⟩, lst⟩ := e
    simp only [List.map_cons, List.mem_cons] at h
    push_neg at h
    have hne : ¬ (room = r ∧ ts = t) := by
      intro hc
      exact h.1 (by simp [hc.1, hc.2])
    by_cases hlen : 1 < lst.length
    · simp only [roomConflictPass, if_pos hlen]
      rw [roomConflictPass_snd]
      rw [List.filter_append]
      simp [isRoomConflictAt, hne, ih h.2]
    · simp only [roomConflictPass, if_neg hlen]
      exact ih h.2

lemma roomConflictPass_filter (r t : String) :
    ∀ (occ : List ((String × String) × List (Nat × String))) (l : List (Nat × String)),
      (occ.map Prod.fst).Nodup →
      lookupA (r, t) occ = some l → 1 < l.length →
      ((roomConflictPass occ ((0 : ℚ), ([] : List Reason))).2).filter
          (isRoomConflictAt r t) =
        [Reason.roomConflict r (l.map Prod.snd) t] := by
  intro occ
  induction occ with
  | nil => intro l _ hl; simp [lookupA] at hl
  | cons e rest ih =>
    intro l hnd hl hlen
    obtain ⟨⟨room, ts⟩, lst⟩ := e
    rw [List.map_cons, List.nodup_cons] at hnd
    obtain ⟨hhead, htail⟩ := hnd
    by_cases hk : (r, t) = (room, ts)
    · rw [lookupA, if_pos hk] at hl
      rw [Option.some_inj] at hl
      subst hl
      have hp := hk
      rw [Prod.mk.injEq] at hp
      obtain ⟨hr, ht⟩ := hp
      have hrest : (r, t) ∉ rest.map Prod.fst := by
        rw [hr, ht]; exact hhead
      simp only [roomConflictPass, if_pos hlen]
      rw [roomConflictPass_snd, List.filter_append,
        roomConflictPass_filter_not_mem r t rest hrest]
      rw [← hr, ← ht]
      simp [isRoomConflictAt]
    · rw [lookupA, if_neg hk] at hl
      have hne : ¬ (room = r ∧ ts = t) := by
        intro hc
        exact hk (by simp [hc.1, hc.2])
      by_cases hl2 : 1 < lst.length
      · simp only [roomConflictPass, if_pos hl2]
        rw [roomConflictPass_snd, List.filter_append]
        rw [ih l htail hl hlen]
        simp [isRoomConflictAt, hne]
      · simp only [roomConflictPass, if_neg hl2]
        exact ih l htail hl hlen

/-- All conditions under which position `idx` with gene `g` passes the
per-gene loop body of `evaluate_schedule` without adding any penalty
or reason: the lesson parses and its class is known, the room is in
the capacity table with capacity at least the class size, and — when a
teacher is assigned — the timeslot and subject satisfy any non-empty
preference lists. -/
def geneGood (li : List String) (rc : RoomsCapacity) (cs : ClassStudents)
    (tol : TeacherOfLesson) (ti : TeacherInfos) (idx : Nat) (g : Gene) : Bool :=
  match li[idx]? with
  | none => false
  | some lessonId =>
    match lessonSubject lessonId with
    | none => false
    | some subject =>
      match lookupA (lessonClass lessonId) cs with
      | none => false
      | some students =>
        match lookupA g.1 rc with
        | none => false
        | some cap =>
          decide (students ≤ cap) &&
          (match assignedTeacher tol idx with
           | none => true
           | some tid =>
             (decide (tinfoPreferred ti tid = []) ||
                decide (g.2 ∈ tinfoPreferred ti tid)) &&
             (decide (tinfoFavorites ti tid = []) ||
                decide (subject ∈ tinfoFavorites ti tid)))

/-- Predicate `geneGood` at every position of the genome, starting at `idx`. -/
def goodGenome (li : List String) (rc : RoomsCapacity) (cs : ClassStudents)
    (tol : TeacherOfLesson) (ti : TeacherInfos) : Nat → List Gene → Bool
  | _, [] => true
  | idx, g :: rest =>
    geneGood li rc cs tol ti idx g && goodGenome li rc cs tol ti (idx + 1) rest

lemma geneStep_good (li : List String) (rc : RoomsCapacity) (cs : ClassStudents)
    (tol : TeacherOfLesson) (ti : TeacherInfos) (idx : Nat) (g : Gene)
    (st : EvalState) (h : geneGood li rc cs tol ti idx g = true) :
    ∃ st', geneStep li rc cs tol ti idx g st = some st' ∧
      st'.violations = st.violations ∧ st'.reasons = st.reasons := by
  cases h1 : li[idx]? with
  | none => simp [geneGood, h1] at h
  | some lessonId =>
    cases h2 : lessonSubject lessonId with
    | none => simp [geneGood, h1, h2] at h
    | some subj =>
      cases h3 : lookupA (lessonClass lessonId) cs with
      | none => simp [geneGood, h1, h2, h3] at h
      | some stu =>
        cases h4 : lookupA g.1 rc with
        | none => simp [geneGood, h1, h2, h3, h4] at h
        | some cap =>
          cases h5 : lookupA idx tol with
          | none =>
            have hat : assignedTeacher tol idx = none := by
              simp [assignedTeacher, h5]
            simp only [geneGood, h1, h2, h3, h4, hat, Bool.and_true,
              decide_eq_true_eq] at h
            have hnc : ¬ cap < stu := by omega
            refine ⟨{ st with
                occ := updAssoc st.occ (g.1, g.2) (idx, lessonClass lessonId) },
              ?_, rfl, rfl⟩
            simp [geneStep, h1, h2, h3, h4, h5, if_neg hnc]
          | some tid =>
            by_cases h6 : tid = ""
            · have hat : assignedTeacher tol idx = none := by
                simp [assignedTeacher, h5, h6]
              simp only [geneGood, h1, h2, h3, h4, hat, Bool.and_true,
                decide_eq_true_eq] at h
              have hnc : ¬ cap < stu := by omega
              refine ⟨{ st with
                  occ := updAssoc st.occ (g.1, g.2) (idx, lessonClass lessonId) },
                ?_, rfl, rfl⟩
              simp only [geneStep, h1, h2, h3, h4, h5]
              rw [if_neg hnc, if_pos h6]
            · have hat : assignedTeacher tol idx = some tid := by
                simp [assignedTeacher, h5, h6]
              simp only [geneGood, h1, h2, h3, h4, hat, Bool.and_eq_true,
                Bool.or_eq_true, decide_eq_true_eq] at h
              obtain ⟨hcap, hpf, hfv⟩ := h
              have hnc : ¬ cap < stu := by omega
              have hnp : ¬ (tinfoPreferred ti tid ≠ [] ∧ g.2 ∉ tinfoPreferred ti tid) := by
                rcases hpf with h | h
                · simp [h]
                · intro hc; exact hc.2 h
              have hnf : ¬ (tinfoFavorites ti tid ≠ [] ∧ subj ∉ tinfoFavorites ti tid) := by
                rcases hfv with h | h
                · simp [h]
                · intro hc; exact hc.2 h
              refine ⟨{ st with
                  occ := updAssoc st.occ (g.1, g.2) (idx, lessonClass lessonId),
                  load := incAssoc st.load tid,
                  sched := updAssoc st.sched tid (g.2, lessonClass lessonId) },
                ?_, rfl, rfl⟩
              simp only [geneStep, h1, h2, h3, h4, h5]
              rw [if_neg hnc, if_neg h6, if_neg hnp, if_neg hnf]

lemma evalGenes_good (li : List String) (rc : RoomsCapacity) (cs : ClassStudents)
    (tol : TeacherOfLesson) (ti : TeacherInfos) :
    ∀ (genes : List Gene) (idx : Nat) (st : EvalState),
      goodGenome li rc cs tol ti idx genes = true →
      ∃ st', evalGenes li rc cs tol ti idx genes st = some st' ∧
        st'.violations = st.violations ∧ st'.reasons = st.reasons := by
  intro genes
  induction genes with
  | nil => intro idx st _; exact ⟨st, rfl, rfl, rfl⟩
  | cons g rest ih =>
    intro idx st h
    rw [goodGenome, Bool.and_eq_true] at h
    obtain ⟨hg, hrest⟩ := h
    obtain ⟨st₁, hstep, hv₁, hr₁⟩ := geneStep_good li rc cs tol ti idx g st hg
    obtain ⟨st', hrun, hv', hr'⟩ := ih (idx + 1) st₁ hrest
    refine ⟨st', ?_, hv'.trans hv₁, hr'.trans hr₁⟩
    simp [evalGenes, hstep, hrun]

lemma countKey_eq_zero_of_not_mem {α : Type} [DecidableEq α] (l : List α) (k : α)
    (h : k ∉ l) : countKey k l = 0 := by
  induction l with
  | nil => rfl
  | cons x rest ih =>
    have hx : ¬ x = k := fun he => h (he ▸ List.mem_cons_self x rest)
    simp only [countKey, if_neg hx, ih (fun hm => h (List.mem_cons_of_mem x hm))]

lemma nodup_countKey_le_one {α : Type} [DecidableEq α] (l : List α) (h : l.Nodup)
    (k : α) : countKey k l ≤ 1 := by
  induction l with
  | nil => simp [countKey]
  | cons x rest ih =>
    obtain ⟨hx, hrest⟩ := List.nodup_cons.mp h
    by_cases he : x = k
    · subst he
      rw [countKey, if_pos rfl, countKey_eq_zero_of_not_mem rest x hx]
    · rw [countKey, if_neg he, Nat.zero_add]
      exact ih hrest

lemma valuesFor_append {κ ν : Type} [DecidableEq κ] (k : κ) (es₁ es₂ : List (κ × ν)) :
    valuesFor k (es₁ ++ es₂) = valuesFor k es₁ ++ valuesFor k es₂ := by
  induction es₁ with
  | nil => rfl
  | cons e rest ih =>
    by_cases he : e.1 = k <;> simp [valuesFor, he, ih]

lemma countKey_map_fst {κ ν : Type} [DecidableEq κ] (k : κ) :
    ∀ es : List (κ × ν), countKey k (es.map Prod.fst) = (valuesFor k es).length := by
  intro es
  induction es with
  | nil => rfl
  | cons e rest ih =>
    by_cases he : e.1 = k
    · simp [countKey, valuesFor, he, ih]
      omega
    · simp [countKey, valuesFor, he, ih]

lemma foldUpd_entry_values {κ ν : Type} [DecidableEq κ] (es : List (κ × ν)) (k : κ)
    (l : List ν) (hm : (k, l) ∈ foldUpd [] es) : l = valuesFor k es := by
  have hnd : ((foldUpd ([] : List (κ × List ν)) es).map Prod.fst).Nodup :=
    nodup_keys_foldUpd es [] (by simp)
  have hlk := lookupA_of_mem_nodup _ _ _ hnd hm
  rw [lookupA_foldUpd] at hlk
  revert hlk
  cases hv : valuesFor k es <;> simp [lookupA]
  intro h
  exact h.symm

/-- The list of timeslots of the lessons assigned (per
`teacher_of_lesson`, Python-truthily) to teacher `tid`, from position
`idx`; its length is the teacher's lesson count. -/
def assignedSlots (tol : TeacherOfLesson) (tid : String) : Nat → List Gene → List String
  | _, [] => []
  | idx, g :: rest =>
    (match assignedTeacher tol idx with
     | none => []
     | some t => if t = tid then [g.2] else []) ++ assignedSlots tol tid (idx + 1) rest

lemma teacherEvents_values (li : List String) (rc : RoomsCapacity) (cs : ClassStudents)
    (tol : TeacherOfLesson) (ti : TeacherInfos) :
    ∀ (genes : List Gene) (idx : Nat) (tid : String),
      goodGenome li rc cs tol ti idx genes = true →
      (valuesFor tid (teacherEvents li rc tol idx genes)).map Prod.fst =
        assignedSlots tol tid idx genes := by
  intro genes
  induction genes with
  | nil => intro idx tid _; rfl
  | cons g rest ih =>
    intro idx tid h
    rw [goodGenome, Bool.and_eq_true] at h
    obtain ⟨hg, hrest⟩ := h
    cases h1 : li[idx]? with
    | none => simp [geneGood, h1] at hg
    | some lessonId =>
      cases h2 : lessonSubject lessonId with
      | none => simp [geneGood, h1, h2] at hg
      | some subj =>
        cases h3 : lookupA (lessonClass lessonId) cs with
        | none => simp [geneGood, h1, h2, h3] at hg
        | some stu =>
          cases h4 : lookupA g.1 rc with
          | none => simp [geneGood, h1, h2, h3, h4] at hg
          | some cap =>
            cases h5 : assignedTeacher tol idx with
            | none =>
              simp only [teacherEvents, assignedSlots, h1, h4, h5,
                List.nil_append]
              exact ih (idx + 1) tid hrest
            | some t =>
              by_cases ht : t = tid
              · simp only [teacherEvents, assignedSlots, h1, h4, h5, if_pos ht]
                rw [show ([(t, (g.2, lessonClass lessonId))] ++
                    teacherEvents li rc tol (idx + 1) rest : List (String × (String × String)))
                    = (t, (g.2, lessonClass lessonId)) ::
                      teacherEvents li rc tol (idx + 1) rest from rfl]
                rw [show valuesFor tid ((t, (g.2, lessonClass lessonId)) ::
                    teacherEvents li rc tol (idx + 1) rest)
                    = (g.2, lessonClass lessonId) ::
                      valuesFor tid (teacherEvents li rc tol (idx + 1) rest) by
                  simp [valuesFor, ht]]
                simp [ih (idx + 1) tid hrest]
              · simp only [teacherEvents, assignedSlots, h1, h4, h5, if_neg ht]
                rw [show valuesFor tid ([(t, (g.2, lessonClass lessonId))] ++
                    teacherEvents li rc tol (idx + 1) rest)
                    = valuesFor tid (teacherEvents li rc tol (idx + 1) rest) by
                  simp [valuesFor, ht]]
                simp [ih (idx + 1) tid hrest]

lemma valuesFor_occEvents_count (li : List String) (rc : RoomsCapacity)
    (cs : ClassStudents) (r t : String) (cap : Nat) (hr : lookupA r rc = some cap) :
    ∀ (genes : List Gene) (idx : Nat),
      (∀ j, j < genes.length → geneOk li cs (idx + j) = true) →
      (valuesFor ((r, t) : String × String) (occEvents li rc idx genes)).length =
        countKey ((r, t) : Gene) genes := by
  intro genes
  induction genes with
  | nil => intro idx _; rfl
  | cons g rest ih =>
    intro idx h
    have h0 := h 0 (by simp)
    rw [Nat.add_zero] at h0
    have hrec : ∀ j, j < rest.length → geneOk li cs (idx + 1 + j) = true := by
      intro j hj
      have := h (j + 1) (by simpa using Nat.succ_lt_succ hj)
      rw [show idx + (j + 1) = idx + 1 + j by omega] at this
      exact this
    cases h1 : li[idx]? with
    | none => simp [geneOk, h1] at h0
    | some lessonId =>
      cases h4 : lookupA g.1 rc with
      | none =>
        simp only [occEvents, h1, h4, List.nil_append]
        have hgne : ¬ g = ((r, t) : Gene) := by
          intro he
          have hg1 : g.1 = r := by rw [he]
          rw [hg1, hr] at h4
          cases h4
        rw [countKey, if_neg hgne, Nat.zero_add]
        exact ih (idx + 1) hrec
      | some cap' =>
        simp only [occEvents, h1, h4]
        rw [valuesFor_append]
        by_cases hg : ((g.1, g.2) : String × String) = (r, t)
        · rw [show valuesFor ((r, t) : String × String)
              [((g.1, g.2), (idx, lessonClass lessonId))] = [(idx, lessonClass lessonId)] by
            simp [valuesFor, hg]]
          have hgk : g = ((r, t) : Gene) := by
            rw [← hg]
          rw [countKey, if_pos hgk]
          rw [List.length_append, List.length_singleton, ih (idx + 1) hrec]
        · rw [show valuesFor ((r, t) : String × String)
              [((g.1, g.2), (idx, lessonClass lessonId))] = [] by
            simp [valuesFor, hg]]
          have hgk : ¬ g = ((r, t) : Gene) := fun he => hg (by rw [he])
          rw [countKey, if_neg hgk, List.nil_append, Nat.zero_add]
          exact ih (idx + 1) hrec

/-- The `assigned_room_timeslot` occupancy table `evaluate_schedule`
builds for a genome (proved equal to the loop state's `occ` field by
`evalGenes_proj`). -/
def occOf (li : List String) (rc : RoomsCapacity) (ind : List Gene) :
    List ((String × String) × List (Nat × String)) :=
  foldUpd [] (occEvents li rc 0 ind)

/-- C2: whenever `evaluate_schedule` completes, for every (room,
timeslot) key `(r, t)` (with `r` in the capacity table) occupied by
`k > 1` genes — `k` counted anywhere in the genome, so independent of
the genes' positions — the room-conflict pass runs on the occupancy
table `occOf`, whose entry at `(r, t)` lists exactly those `k` genes;
it adds exactly `10 × (k − 1)` to the score for that key (removing the
key removes exactly that amount) and appends exactly one conflict
reason for `(r, t)`, naming all involved classes. -/
theorem C2_room_conflict_pass_exact (ind : List Gene) (li : List String)
    (rc : RoomsCapacity) (cs : ClassStudents) (tol : TeacherOfLesson)
    (ti : TeacherInfos) (cg : ClassGradeMap) (r t : String) (cap : Nat)
    (v : ℚ) (rs : List Reason)
    (hsucc : (evaluate_schedule ind li rc cs tol ti cg).isSome = true)
    (hr : lookupA r rc = some cap)
    (hk : 1 < countKey ((r, t) : Gene) ind) :
    ∃ st l,
      evalGenes li rc cs tol ti 0 ind initState = some st ∧
      st.occ = occOf li rc ind ∧
      lookupA (r, t) (occOf li rc ind) = some l ∧
      l.length = countKey ((r, t) : Gene) ind ∧
      (roomConflictPass (occOf li rc ind) (v, rs)).1 =
        (roomConflictPass (eraseKey (r, t) (occOf li rc ind)) (v, rs)).1 +
          ((10 * (l.length - 1) : Nat) : ℚ) ∧
      ((roomConflictPass (occOf li rc ind) (v, rs)).2).filter (isRoomConflictAt r t) =
        rs.filter (isRoomConflictAt r t) ++ [Reason.roomConflict r (l.map Prod.snd) t] := by
  have hsome : (evalGenes li rc cs tol ti 0 ind initState).isSome = true := by
    revert hsucc
    unfold evaluate_schedule
    cases evalGenes li rc cs tol ti 0 ind initState with
    | none => intro hs; simp at hs
    | some st => intro _; rfl
  have hok : ∀ j, j < ind.length → geneOk li cs j = true := by
    have hiff := evalGenes_isSome li rc cs tol ti ind 0 initState
    have hall := hiff.mp hsome
    intro j hj
    have := hall j hj
    simpa using this
  cases hev : evalGenes li rc cs tol ti 0 ind initState with
  | none => rw [hev] at hsome; cases hsome
  | some st =>
    have hproj := evalGenes_proj li rc cs tol ti ind 0 initState st hev
    have hocc : st.occ = occOf li rc ind := by
      rw [hproj.1]; rfl
    have hok0 : ∀ j, j < ind.length → geneOk li cs (0 + j) = true := by
      intro j hj
      rw [Nat.zero_add]
      exact hok j hj
    have hlen := valuesFor_occEvents_count li rc cs r t cap hr ind 0 hok0
    cases hv : valuesFor ((r, t) : String × String) (occEvents li rc 0 ind) with
    | nil => rw [hv] at hlen; simp at hlen; omega
    | cons x xs =>
      rw [hv] at hlen
      have hlen2 : 1 < (x :: xs).length := by rw [hlen]; exact hk
      have hlk : lookupA (r, t) (occOf li rc ind) = some (x :: xs) := by
        rw [show occOf li rc ind = foldUpd [] (occEvents li rc 0 ind) from rfl,
          lookupA_foldUpd, hv]
        simp [lookupA]
      have hnd : ((occOf li rc ind).map Prod.fst).Nodup :=
        nodup_keys_foldUpd _ [] (by simp)
      refine ⟨st, x :: xs, rfl, hocc, hlk, hlen, ?_, ?_⟩
      · rw [roomConflictPass_fst (occOf li rc ind) v rs,
          roomConflictPass_fst (eraseKey (r, t) (occOf li rc ind)) v rs,
          roomConflictPass_erase r t (occOf li rc ind) (x :: xs) hlk hlen2]
        ring
      · rw [roomConflictPass_snd (occOf li rc ind) v rs, List.filter_append,
          roomConflictPass_filter r t (occOf li rc ind) (x :: xs) hnd hlk hlen2]

/-- Witness for C2 at the concrete k = 2 collision of the end-to-end
scenario. -/
theorem C2_room_conflict_pass_exact_witness :
    ∃ st l,
      evalGenes ["C1::Math::1", "C2::Hist::1", "C3::Geo::1"]
          [("R1", 30), ("R2", 20)] [("C1", 25), ("C2", 10), ("C3", 25)] [] []
          0 [("R1", "T1"), ("R1", "T1"), ("R2", "T2")] initState = some st ∧
      st.occ = occOf ["C1::Math::1", "C2::Hist::1", "C3::Geo::1"] [("R1", 30), ("R2", 20)]
          [("R1", "T1"), ("R1", "T1"), ("R2", "T2")] ∧
      lookupA ("R1", "T1") (occOf ["C1::Math::1", "C2::Hist::1", "C3::Geo::1"]
          [("R1", 30), ("R2", 20)] [("R1", "T1"), ("R1", "T1"), ("R2", "T2")]) = some l ∧
      l.length = countKey ((("R1", "T1")) : Gene)
          [("R1", "T1"), ("R1", "T1"), ("R2", "T2")] ∧
      (roomConflictPass (occOf ["C1::Math::1", "C2::Hist::1", "C3::Geo::1"]
            [("R1", 30), ("R2", 20)] [("R1", "T1"), ("R1", "T1"), ("R2", "T2")])
          (0, [])).1 =
        (roomConflictPass (eraseKey ("R1", "T1")
            (occOf ["C1::Math::1", "C2::Hist::1", "C3::Geo::1"] [("R1", 30), ("R2", 20)]
              [("R1", "T1"), ("R1", "T1"), ("R2", "T2")])) (0, [])).1 +
          ((10 * (l.length - 1) : Nat) : ℚ) ∧
      ((roomConflictPass (occOf ["C1::Math::1", "C2::Hist::1", "C3::Geo::1"]
            [("R1", 30), ("R2", 20)] [("R1", "T1"), ("R1", "T1"), ("R2", "T2")])
          (0, [])).2).filter (isRoomConflictAt "R1" "T1") =
        (([] : List Reason)).filter (isRoomConflictAt "R1" "T1") ++
          [Reason.roomConflict "R1" (l.map Prod.snd) "T1"] :=
  C2_room_conflict_pass_exact [("R1", "T1"), ("R1", "T1"), ("R2", "T2")]
    ["C1::Math::1", "C2::Hist::1", "C3::Geo::1"] [("R1", 30), ("R2", 20)]
    [("C1", 25), ("C2", 10), ("C3", 25)] [] [] [] "R1" "T1" 30 0 []
    (by decide) (by decide) (by decide)

lemma valuesFor_occEvents_le (li : List String) (rc : RoomsCapacity) :
    ∀ (genes : List Gene) (idx : Nat) (key : String × String),
      (valuesFor key (occEvents li rc idx genes)).length ≤ countKey (key : Gene) genes := by
  intro genes
  induction genes with
  | nil => intro idx key; simp [occEvents, valuesFor, countKey]
  | cons g rest ih =>
    intro idx key
    have hcount : countKey (key : Gene) (g :: rest) =
        (if g = key then 1 else 0) + countKey key rest := rfl
    cases h1 : li[idx]? with
    | none =>
      simp only [occEvents, h1, List.nil_append, hcount]
      have := ih (idx + 1) key
      omega
    | some lessonId =>
      cases h4 : lookupA g.1 rc with
      | none =>
        simp only [occEvents, h1, h4, List.nil_append, hcount]
        have := ih (idx + 1) key
        omega
      | some cap =>
        simp only [occEvents, h1, h4, hcount]
        rw [valuesFor_append]
        by_cases hg : ((g.1, g.2) : String × String) = key
        · have hgk : g = key := by rw [← hg]
          rw [show valuesFor key [((g.1, g.2), (idx, lessonClass lessonId))] =
              [(idx, lessonClass lessonId)] by simp [valuesFor, hg]]
          rw [if_pos hgk]
          have := ih (idx + 1) key
          simp only [List.length_append, List.length_singleton]
          omega
        · have hgk : ¬ g = key := fun he => hg (by rw [he])
          rw [show valuesFor key [((g.1, g.2), (idx, lessonClass lessonId))] =
              ([] : List (Nat × String)) by simp [valuesFor, hg]]
          rw [if_neg hgk]
          have := ih (idx + 1) key
          simpa using this

lemma foldInc_entry_count (ks : List String) (k : String) (n : Nat)
    (hm : (k, n) ∈ foldInc [] ks) : n = countKey k ks := by
  have hnd : ((foldInc ([] : List (String × Nat)) ks).map Prod.fst).Nodup :=
    nodup_keys_foldInc ks [] (by simp)
  have hlk := lookupA_of_mem_nodup _ _ _ hnd hm
  rw [lookupA_foldInc] at hlk
  revert hlk
  cases hc : countKey k ks <;> simp [lookupA]
  intro h
  exact h.symm

/-- C1: a genome in which every gene is `geneGood` (its lesson parses,
its class size is known, its room is in the capacity table with
sufficient capacity, and any non-empty teacher preference lists are
satisfied), no two genes share a (room, timeslot) pair, no assigned
teacher occupies the same timeslot twice, and every assigned teacher's
lesson count respects any defined max workload, evaluates to score 0
with an empty reasons list. -/
theorem C1_perfect_schedule_scores_zero (ind : List Gene) (li : List String)
    (rc : RoomsCapacity) (cs : ClassStudents) (tol : TeacherOfLesson)
    (ti : TeacherInfos) (cg : ClassGradeMap)
    (hgood : goodGenome li rc cs tol ti 0 ind = true)
    (hnodup : ind.Nodup)
    (hteacher : ∀ tid : String, (assignedSlots tol tid 0 ind).Nodup)
    (hload : ∀ (tid : String) (maxw : Nat), tinfoMaxWorkload ti tid = some maxw →
      (assignedSlots tol tid 0 ind).length ≤ maxw) :
    evaluate_schedule ind li rc cs tol ti cg = some (0, []) := by
  obtain ⟨st, hev, hv, hr⟩ := evalGenes_good li rc cs tol ti ind 0 initState hgood
  obtain ⟨po, ps, pl⟩ := evalGenes_proj li rc cs tol ti ind 0 initState st hev
  have po' : st.occ = foldUpd [] (occEvents li rc 0 ind) := po
  have ps' : st.sched = foldUpd [] (teacherEvents li rc tol 0 ind) := ps
  have pl' : st.load = foldInc [] ((teacherEvents li rc tol 0 ind).map Prod.fst) := pl
  have hoccb : ∀ e ∈ st.occ, e.2.length ≤ 1 := by
    intro e he
    obtain ⟨key, l⟩ := e
    have hl := foldUpd_entry_values _ key l (po' ▸ he)
    have hle := valuesFor_occEvents_le li rc ind 0 key
    rw [← hl] at hle
    have hone := nodup_countKey_le_one ind hnodup key
    simpa using le_trans hle hone
  have hschb : ∀ e ∈ st.sched, ∀ e' ∈ groupByTimeslot e.2, e'.2.length ≤ 1 := by
    intro e he
    obtain ⟨tid, schedule⟩ := e
    intro e' he'
    have hsch := foldUpd_entry_values _ tid schedule (ps' ▸ he)
    have hbridge := teacherEvents_values li rc cs tol ti ind 0 tid hgood
    rw [← hsch] at hbridge
    have hnod : (schedule.map Prod.fst).Nodup := by
      rw [hbridge]; exact hteacher tid
    simp only at he'
    rw [groupByTimeslot_eq_foldUpd] at he'
    obtain ⟨ts, classes⟩ := e'
    have hcl := foldUpd_entry_values _ ts classes he'
    have hlen : classes.length = countKey ts (schedule.map Prod.fst) := by
      rw [hcl, countKey_map_fst]
    simp only
    rw [hlen]
    exact nodup_countKey_le_one _ hnod ts
  have hldb : ∀ e ∈ st.load, ∀ maxw, tinfoMaxWorkload ti e.1 = some maxw →
      e.2 ≤ maxw := by
    intro e he maxw hmw
    obtain ⟨tid, n⟩ := e
    have hn := foldInc_entry_count _ tid n (pl' ▸ he)
    have hbridge := teacherEvents_values li rc cs tol ti ind 0 tid hgood
    have hlen : countKey tid ((teacherEvents li rc tol 0 ind).map Prod.fst) =
        (assignedSlots tol tid 0 ind).length := by
      rw [countKey_map_fst, ← hbridge, List.length_map]
    simp only at hmw ⊢
    rw [hn, hlen]
    exact hload tid maxw hmw
  have hoccz := roomConflictPass_id st.occ st.violations st.reasons hoccb
  have hschz := teacherConflictPass_id ti st.sched st.violations st.reasons hschb
  have hldz := workloadPass_id ti st.load st.violations st.reasons hldb
  unfold evaluate_schedule
  rw [hev]
  show some (workloadPass ti st.load (teacherConflictPass ti st.sched
      (roomConflictPass st.occ (st.violations, st.reasons)))) = some (0, [])
  rw [hoccz, hschz, hldz, hv, hr]
  rfl

/-- Witness for C1 at a concrete one-lesson perfect schedule with an
assigned teacher whose preferences are satisfied. -/
theorem C1_perfect_schedule_scores_zero_witness :
    evaluate_schedule [("R1", "T1")] ["C1::Math::1"] [("R1", 30)] [("C1", 25)]
      [(0, "T7")]
      [("T7", ⟨some "Ana", some "T1", some "Math", some 5⟩)] [] = some (0, []) :=
  C1_perfect_schedule_scores_zero [("R1", "T1")] ["C1::Math::1"] [("R1", 30)]
    [("C1", 25)] [(0, "T7")]
    [("T7", ⟨some "Ana", some "T1", some "Math", some 5⟩)] []
    (by decide) (by decide)
    (by
      intro tid
      by_cases h : ("T7" : String) = tid
      · subst h
        decide
      · simp [assignedSlots, assignedTeacher, lookupA, h])
    (by
      intro tid maxw hmw
      by_cases h : tid = "T7"
      · subst h
        have h5 : maxw = 5 := by
          simpa [tinfoMaxWorkload, lookupA] using hmw.symm
        subst h5
        decide
      · simp [tinfoMaxWorkload, lookupA, h] at hmw)
